import Mathlib

/-!
Verification development for the NASA-Challenge-Embiggen-Viewer client.

The TypeScript sources are shallowly embedded: JS strings are modelled as
`List Char`, JS numbers as `JsNum` (an exact rational or `NaN`; the host
floating-point representation is abstracted to `ℚ`), and JS dynamic values
as the inductive `JSVal`.  Stateful controller code (the annotation sync
engine, the request-deduplication cache, the catalog cache, the tile-load
tracker) is embedded as explicit state-passing functions together with a
small discrete-time trace semantics for the debounce timers.
-/

namespace Embiggen

/-- JS number: either NaN or an exact rational.  The viewer only ever
manipulates decimal literals of at most 6 fractional digits, which are exact
in this model; host binary floating point is abstracted away. -/
inductive JsNum where
  | nan
  | num (q : ℚ)
deriving DecidableEq, Repr

/-- Character code of a decimal digit. -/
def isDigitChar (c : Char) : Bool :=
  48 ≤ c.toNat && c.toNat ≤ 57

/-- Value of one decimal digit character. -/
def digitVal (c : Char) : ℕ := c.toNat - 48

/-- Decimal digit character for a value `< 10`. -/
def digitChar (d : ℕ) : Char := Char.ofNat (48 + d)

/-- Decimal digit string (most significant first) of a natural number,
as produced by JS number-to-string conversion for integers. -/
def natToDigits (n : ℕ) : List Char :=
  if _h : n < 10 then [digitChar n]
  else natToDigits (n / 10) ++ [digitChar (n % 10)]
decreasing_by exact Nat.div_lt_self (by omega) (by omega)

/-- Accumulating value of a decimal digit string. -/
def digitsValAux (acc : ℕ) : List Char → ℕ
  | [] => acc
  | c :: rest => digitsValAux (acc * 10 + digitVal c) rest

/-- Value of a decimal digit string, most significant first. -/
def digitsVal (l : List Char) : ℕ := digitsValAux 0 l

theorem digitsValAux_cons (acc : ℕ) (c : Char) (rest : List Char) :
    digitsValAux acc (c :: rest) = digitsValAux (acc * 10 + digitVal c) rest := rfl

theorem digitsValAux_nil (acc : ℕ) : digitsValAux acc [] = acc := rfl

theorem digitsValAux_eq (acc : ℕ) (l : List Char) :
    digitsValAux acc l = acc * 10 ^ l.length + digitsVal l := by
  induction l generalizing acc with
  | nil => rw [digitsValAux_nil]; rw [show digitsVal [] = 0 from rfl]; simp
  | cons c rest ih =>
    rw [digitsValAux_cons, ih]
    rw [show digitsVal (c :: rest) = digitsValAux (0 * 10 + digitVal c) rest from rfl]
    rw [ih (0 * 10 + digitVal c)]
    simp only [List.length_cons]
    ring

theorem digitsValAux_append (acc : ℕ) (a b : List Char) :
    digitsValAux acc (a ++ b) = digitsValAux (digitsValAux acc a) b := by
  induction a generalizing acc with
  | nil => rw [List.nil_append, digitsValAux_nil]
  | cons c rest ih => rw [List.cons_append, digitsValAux_cons, digitsValAux_cons, ih]

theorem digitsVal_append (a b : List Char) :
    digitsVal (a ++ b) = digitsVal a * 10 ^ b.length + digitsVal b := by
  rw [digitsVal, digitsValAux_append, digitsValAux_eq, digitsVal]
  rfl

theorem digitChar_val (d : ℕ) (h : d < 10) : digitVal (digitChar d) = d := by
  interval_cases d <;> rfl

theorem digitChar_isDigit (d : ℕ) (h : d < 10) : isDigitChar (digitChar d) = true := by
  interval_cases d <;> rfl

theorem digitsVal_singleton (c : Char) : digitsVal [c] = digitVal c := by
  rw [digitsVal, digitsValAux_cons, digitsValAux_nil]
  omega

theorem natToDigits_val (n : ℕ) : digitsVal (natToDigits n) = n := by
  induction n using Nat.strong_induction_on with
  | _ n ih =>
    rw [natToDigits]
    by_cases h : n < 10
    · simp only [h, dif_pos]
      rw [digitsVal_singleton, digitChar_val n h]
    · simp only [h, dif_neg, not_false_iff]
      rw [digitsVal_append, digitsVal_singleton,
        ih (n / 10) (Nat.div_lt_self (by omega) (by omega)),
        digitChar_val _ (Nat.mod_lt _ (by omega))]
      simp only [List.length_cons, List.length_nil, pow_one]
      omega

theorem natToDigits_ne_nil (n : ℕ) : natToDigits n ≠ [] := by
  rw [natToDigits]
  by_cases h : n < 10 <;> simp [h]

theorem natToDigits_all_digit (n : ℕ) : ∀ c ∈ natToDigits n, isDigitChar c = true := by
  induction n using Nat.strong_induction_on with
  | _ n ih =>
    rw [natToDigits]
    by_cases h : n < 10
    · simp only [h, dif_pos, List.mem_singleton]
      intro c hc; subst hc; exact digitChar_isDigit n h
    · simp only [h, dif_neg, not_false_iff]
      intro c hc
      rcases List.mem_append.mp hc with hmem | hmem
      · exact ih (n / 10) (Nat.div_lt_self (by omega) (by omega)) c hmem
      · rcases List.mem_singleton.mp hmem with rfl
        exact digitChar_isDigit _ (Nat.mod_lt _ (by omega))

theorem natToDigits_length_le (k : ℕ) (n : ℕ) (hk : 1 ≤ k) (h : n < 10 ^ k) :
    (natToDigits n).length ≤ k := by
  induction n using Nat.strong_induction_on generalizing k with
  | _ n ih =>
    rw [natToDigits]
    by_cases hn : n < 10
    · simp only [hn, dif_pos, List.length_singleton]
      omega
    · simp only [hn, dif_neg, not_false_iff, List.length_append, List.length_singleton]
      have hk2 : 2 ≤ k := by
        by_contra hcon
        have : k = 1 := by omega
        subst this
        simp at h
        omega
      have h2 : 10 ^ k = 10 ^ (k - 1) * 10 := by
        rw [← pow_succ]
        congr 1
        omega
      have hdiv : n / 10 < 10 ^ (k - 1) := by
        rw [h2] at h
        omega
      have := ih (n / 10) (Nat.div_lt_self (by omega) (by omega)) (k - 1) (by omega) hdiv
      omega

/-- Longest digit prefix of a digit list followed by a dot. -/
theorem takeWhile_digits_dot (a b : List Char) (ha : ∀ c ∈ a, isDigitChar c = true) :
    List.takeWhile isDigitChar (a ++ '.' :: b) = a ∧
    List.dropWhile isDigitChar (a ++ '.' :: b) = '.' :: b := by
  have hdot : isDigitChar '.' = false := by decide
  induction a with
  | nil =>
    constructor
    · rw [List.nil_append, List.takeWhile_cons, hdot]
      simp
    · rw [List.nil_append, List.dropWhile_cons, hdot]
      simp
  | cons c rest ih =>
    have hc : isDigitChar c = true := ha c (List.mem_cons_self c rest)
    have hrest : ∀ x ∈ rest, isDigitChar x = true := fun x hx => ha x (List.mem_cons_of_mem c hx)
    obtain ⟨iht, ihd⟩ := ih hrest
    constructor
    · rw [List.cons_append, List.takeWhile_cons, hc]
      simp [iht]
    · rw [List.cons_append, List.dropWhile_cons, hc]
      simp [ihd]

/-- Core of JS `Number(string)` on an unsigned decimal numeral: digits,
optionally followed by a dot and further digits (`"12"`, `"12."`, `".5"`).
`none` when the text is not such a numeral. -/
def parseUnsignedDec (s : List Char) : Option ℚ :=
  let ip := List.takeWhile isDigitChar s
  let rest := List.dropWhile isDigitChar s
  match rest with
  | [] => if ip.isEmpty then none else some ((digitsVal ip : ℚ))
  | c :: frac =>
    if c = '.' then
      if frac.all isDigitChar && !(ip.isEmpty && frac.isEmpty) then
        some ((digitsVal ip : ℚ) + (digitsVal frac : ℚ) / 10 ^ frac.length)
      else none
    else none

/-- JS `Number(string)` restricted to plain decimal numerals (optional sign,
integer digits, optional fraction), the only numeric shape this system emits
or consumes: every other input maps to `NaN` exactly as the host does for
non-numeric text, and `Number("")` is `0` as in JS.  (The host additionally
accepts exponent/hex/Infinity spellings, which never occur here.) -/
def jsNumber (s : List Char) : JsNum :=
  match s with
  | [] => .num 0
  | c :: rest =>
    if c = '-' then
      match parseUnsignedDec rest with
      | some q => .num (-q)
      | none => .nan
    else if c = '+' then
      match parseUnsignedDec rest with
      | some q => .num q
      | none => .nan
    else
      match parseUnsignedDec (c :: rest) with
      | some q => .num q
      | none => .nan

/-- Scaled rounding of a nonnegative rational as ES `toFixed` specifies:
the integer closest to `q·10^p`, ties toward the larger one. -/
def fixedScaled (p : ℕ) (q : ℚ) : ℕ := (Int.floor (q * 10 ^ p + 1 / 2)).toNat

/-- Fraction digits left-padded with zeros to exactly `p` places. -/
def padDigits (p : ℕ) (l : List Char) : List Char :=
  List.replicate (p - l.length) '0' ++ l

/-- `x.toFixed(p)` for a nonnegative exact rational, `p ≥ 1`. -/
def toFixedNonneg (p : ℕ) (q : ℚ) : List Char :=
  let m := fixedScaled p q
  natToDigits (m / 10 ^ p) ++ '.' :: padDigits p (natToDigits (m % 10 ^ p))

/-- `x.toFixed(p)` for an exact rational (ES2023 §21.1.3.3: a sign is emitted
for `x < 0` and `|x|` is formatted). -/
def toFixed (p : ℕ) (q : ℚ) : List Char :=
  if q < 0 then '-' :: toFixedNonneg p (-q) else toFixedNonneg p q

/-- The rational value that `toFixed p` renders. -/
def fixedRound (p : ℕ) (q : ℚ) : ℚ :=
  if q < 0 then -((fixedScaled p (-q) : ℚ) / 10 ^ p) else (fixedScaled p q : ℚ) / 10 ^ p

theorem digitsVal_replicate_zero (k : ℕ) : digitsVal (List.replicate k '0') = 0 := by
  induction k with
  | zero => rfl
  | succ m ih =>
    rw [List.replicate_succ, digitsVal, digitsValAux_cons]
    have : digitVal '0' = 0 := by decide
    rw [this]
    simpa [digitsVal] using ih

theorem digitsVal_padDigits (p : ℕ) (l : List Char) :
    digitsVal (padDigits p l) = digitsVal l := by
  rw [padDigits, digitsVal_append, digitsVal_replicate_zero]
  ring

theorem padDigits_length (p : ℕ) (l : List Char) (h : l.length ≤ p) :
    (padDigits p l).length = p := by
  rw [padDigits, List.length_append, List.length_replicate]
  omega

theorem padDigits_all_digit (p : ℕ) (l : List Char) (hl : ∀ c ∈ l, isDigitChar c = true) :
    ∀ c ∈ padDigits p l, isDigitChar c = true := by
  intro c hc
  rcases List.mem_append.mp hc with hmem | hmem
  · rcases List.eq_of_mem_replicate hmem with rfl
    decide
  · exact hl c hmem

theorem parse_toFixedNonneg (p : ℕ) (q : ℚ) (hp : 1 ≤ p) :
    parseUnsignedDec (toFixedNonneg p q) = some ((fixedScaled p q : ℚ) / 10 ^ p) := by
  set m := fixedScaled p q with hm
  have hfracLen : (natToDigits (m % 10 ^ p)).length ≤ p :=
    natToDigits_length_le p _ hp (Nat.mod_lt _ (by positivity))
  obtain ⟨htake, hdrop⟩ :=
    takeWhile_digits_dot (natToDigits (m / 10 ^ p)) (padDigits p (natToDigits (m % 10 ^ p)))
      (natToDigits_all_digit _)
  rw [parseUnsignedDec, toFixedNonneg]
  simp only [← hm, htake, hdrop]
  simp only [if_true]
  have hall : (padDigits p (natToDigits (m % 10 ^ p))).all isDigitChar = true :=
    List.all_eq_true.mpr (padDigits_all_digit p _ (natToDigits_all_digit _))
  have hfe : (natToDigits (m / 10 ^ p)).isEmpty = false := by
    rcases hx : natToDigits (m / 10 ^ p) with _ | ⟨c, tl⟩
    · exact absurd hx (natToDigits_ne_nil _)
    · rfl
  rw [hall, hfe]
  simp only [Bool.true_and, Bool.false_and, Bool.not_false, if_true]
  rw [natToDigits_val, digitsVal_padDigits, natToDigits_val,
    padDigits_length p _ hfracLen]
  congr 1
  have hdm : ((m / 10 ^ p : ℕ) : ℚ) * 10 ^ p + ((m % 10 ^ p : ℕ) : ℚ) = (m : ℚ) := by
    have h := Nat.div_add_mod m (10 ^ p)
    calc ((m / 10 ^ p : ℕ) : ℚ) * 10 ^ p + ((m % 10 ^ p : ℕ) : ℚ)
        = (((m / 10 ^ p) * 10 ^ p + m % 10 ^ p : ℕ) : ℚ) := by push_cast; ring
      _ = (m : ℚ) := by rw [Nat.div_add_mod' m (10 ^ p)]
  have hpow : ((10 : ℚ) ^ p) ≠ 0 := by positivity
  field_simp
  linarith [hdm]

theorem jsNumber_toFixed (p : ℕ) (q : ℚ) (hp : 1 ≤ p) :
    jsNumber (toFixed p q) = .num (fixedRound p q) := by
  by_cases hq : q < 0
  · rw [toFixed, if_pos hq, jsNumber]
    rw [if_pos rfl, parse_toFixedNonneg p (-q) hp, fixedRound, if_pos hq]
  · rw [toFixed, if_neg hq, fixedRound, if_neg hq]
    have hhead : ∃ c rest, toFixedNonneg p q = c :: rest ∧ isDigitChar c = true := by
      rw [toFixedNonneg]
      rcases hex : natToDigits (fixedScaled p q / 10 ^ p) with _ | ⟨c, tl⟩
      · exact absurd hex (natToDigits_ne_nil _)
      · refine ⟨c, tl ++ '.' :: padDigits p (natToDigits (fixedScaled p q % 10 ^ p)), by simp, ?_⟩
        have := natToDigits_all_digit (fixedScaled p q / 10 ^ p)
        rw [hex] at this
        exact this c (List.mem_cons_self _ _)
    obtain ⟨c, rest, hc, hcd⟩ := hhead
    rw [hc, jsNumber]
    have hcm : c ≠ '-' := by
      intro hcon
      subst hcon
      exact absurd hcd (by decide)
    have hcp : c ≠ '+' := by
      intro hcon
      subst hcon
      exact absurd hcd (by decide)
    rw [if_neg hcm, if_neg hcp, ← hc, parse_toFixedNonneg p q hp]

theorem fixedScaled_cast_bound (p : ℕ) (q : ℚ) (hq : 0 ≤ q) :
    |((fixedScaled p q : ℕ) : ℚ) / 10 ^ p - q| ≤ 1 / (2 * 10 ^ p) := by
  have hpow : (0 : ℚ) < 10 ^ p := by positivity
  have hx0 : (0 : ℚ) ≤ q * 10 ^ p + 1 / 2 := by positivity
  have hflr : (0 : ℤ) ≤ Int.floor (q * 10 ^ p + 1 / 2) := Int.floor_nonneg.mpr hx0
  have hcast : ((fixedScaled p q : ℕ) : ℚ) = ((Int.floor (q * 10 ^ p + 1 / 2) : ℤ) : ℚ) := by
    rw [fixedScaled]
    exact_mod_cast Int.toNat_of_nonneg hflr
  have hle : ((Int.floor (q * 10 ^ p + 1 / 2) : ℤ) : ℚ) ≤ q * 10 ^ p + 1 / 2 :=
    Int.floor_le _
  have hgt : q * 10 ^ p + 1 / 2 < ((Int.floor (q * 10 ^ p + 1 / 2) : ℤ) : ℚ) + 1 :=
    Int.lt_floor_add_one _
  have key : |((Int.floor (q * 10 ^ p + 1 / 2) : ℤ) : ℚ) - q * 10 ^ p| ≤ 1 / 2 := by
    rw [abs_le]
    constructor <;> linarith
  have hrw : ((Int.floor (q * 10 ^ p + 1 / 2) : ℤ) : ℚ) / 10 ^ p - q =
      (((Int.floor (q * 10 ^ p + 1 / 2) : ℤ) : ℚ) - q * 10 ^ p) / 10 ^ p := by
    field_simp
    ring
  have hrw2 : (1 : ℚ) / (2 * 10 ^ p) = (1 / 2) / 10 ^ p := by
    ring
  rw [hcast, hrw, hrw2, abs_div, abs_of_pos hpow]
  exact div_le_div_of_nonneg_right key hpow.le

theorem fixedRound_bound (p : ℕ) (q : ℚ) :
    |fixedRound p q - q| ≤ 1 / (2 * 10 ^ p) := by
  by_cases hq : q < 0
  · rw [fixedRound, if_pos hq]
    have hbd := fixedScaled_cast_bound p (-q) (by linarith)
    have : -((fixedScaled p (-q) : ℚ) / 10 ^ p) - q =
        -(((fixedScaled p (-q) : ℕ) : ℚ) / 10 ^ p - (-q)) := by ring
    rw [this, abs_neg]
    exact hbd
  · rw [fixedRound, if_neg hq]
    exact fixedScaled_cast_bound p q (le_of_not_lt hq)

/-- JS `String.prototype.split` with a one-character separator
(`"".split(",")` is `[""]`, as in JS). -/
def jsSplit (sep : Char) : List Char → List (List Char)
  | [] => [[]]
  | c :: rest =>
    if c = sep then [] :: jsSplit sep rest
    else
      match jsSplit sep rest with
      | t :: ts => (c :: t) :: ts
      | [] => [[c]]

/-- `String.prototype.replace("#", "")`: removes the first occurrence of
`'#'` only. -/
def removeFirstHashChar : List Char → List Char
  | [] => []
  | c :: rest => if c = '#' then rest else c :: removeFirstHashChar rest

theorem jsSplit_nosep (sep : Char) (a : List Char) (ha : ∀ c ∈ a, c ≠ sep) :
    jsSplit sep a = [a] := by
  induction a with
  | nil => rfl
  | cons c rest ih =>
    have hc : c ≠ sep := ha c (List.mem_cons_self c rest)
    rw [jsSplit, if_neg hc, ih fun x hx => ha x (List.mem_cons_of_mem c hx)]

theorem jsSplit_append (sep : Char) (a b : List Char) (ha : ∀ c ∈ a, c ≠ sep) :
    jsSplit sep (a ++ sep :: b) = a :: jsSplit sep b := by
  induction a with
  | nil => rw [List.nil_append, jsSplit, if_pos rfl]
  | cons c rest ih =>
    have hc : c ≠ sep := ha c (List.mem_cons_self c rest)
    rw [List.cons_append, jsSplit, if_neg hc,
      ih fun x hx => ha x (List.mem_cons_of_mem c hx)]

/-- `PermalinkState` from src/unnamed/part_004 line 48: every field of the
decoded fragment is independently optional. -/
structure PermalinkState where
  lon : Option JsNum
  lat : Option JsNum
  z : Option JsNum
  d : Option (List Char)
  k : Option (List Char)
  p : Option (List Char)
deriving DecidableEq, Repr

/-- `tok ? Number(tok) : undefined` over a possibly-missing array slot
(JS indexing past the end gives `undefined`, which is falsy, as is `""`). -/
def numToken (t : Option (List Char)) : Option JsNum :=
  match t with
  | some tok => if tok.isEmpty then none else some (jsNumber tok)
  | none => none

/-- `tok || undefined` over a possibly-missing array slot. -/
def strToken (t : Option (List Char)) : Option (List Char) :=
  match t with
  | some tok => if tok.isEmpty then none else some tok
  | none => none

/-- `readHash` from src/unnamed/part_004 lines 59-72: strip the leading
`'#'`, return the empty state for an empty fragment, otherwise split on
commas and build each field from its positional token. -/
def readHash (hash : List Char) : PermalinkState :=
  if (removeFirstHashChar hash).isEmpty then ⟨none, none, none, none, none, none⟩
  else
    { lon := numToken ((jsSplit ',' (removeFirstHashChar hash)).get? 0)
      lat := numToken ((jsSplit ',' (removeFirstHashChar hash)).get? 1)
      z := numToken ((jsSplit ',' (removeFirstHashChar hash)).get? 2)
      d := strToken ((jsSplit ',' (removeFirstHashChar hash)).get? 3)
      k := strToken ((jsSplit ',' (removeFirstHashChar hash)).get? 4)
      p := strToken ((jsSplit ',' (removeFirstHashChar hash)).get? 5) }

/-- `writeHash` from src/unnamed/part_004 lines 74-80: the fragment is
`#lon.toFixed(5),lat.toFixed(5),zoom.toFixed(2),date,layerKey,proj`, with
`lon`/`lat` the view center already transformed to geographic EPSG:4326
coordinates (the transform itself belongs to the external map library). -/
def writeHash (lon lat zoom : ℚ) (dateISO lkey proj : List Char) : List Char :=
  '#' :: (toFixed 5 lon ++ ',' ::
    (toFixed 5 lat ++ ',' ::
      (toFixed 2 zoom ++ ',' :: (dateISO ++ ',' :: (lkey ++ ',' :: proj)))))

theorem toFixedNonneg_ne_nil (p : ℕ) (q : ℚ) : toFixedNonneg p q ≠ [] := by
  rw [toFixedNonneg]
  intro hcon
  exact natToDigits_ne_nil _ (List.append_eq_nil.mp hcon).1

theorem toFixed_ne_nil (p : ℕ) (q : ℚ) : toFixed p q ≠ [] := by
  rw [toFixed]
  by_cases hq : q < 0
  · rw [if_pos hq]; exact List.cons_ne_nil _ _
  · rw [if_neg hq]; exact toFixedNonneg_ne_nil p q

theorem digit_ne_comma (c : Char) (h : isDigitChar c = true) : c ≠ ',' := by
  intro hcon
  subst hcon
  exact absurd h (by decide)

theorem toFixedNonneg_no_comma (p : ℕ) (q : ℚ) : ∀ c ∈ toFixedNonneg p q, c ≠ ',' := by
  intro c hc
  rw [toFixedNonneg] at hc
  rcases List.mem_append.mp hc with hmem | hmem
  · exact digit_ne_comma c (natToDigits_all_digit _ c hmem)
  · rcases List.mem_cons.mp hmem with rfl | hmem2
    · decide
    · exact digit_ne_comma c (padDigits_all_digit _ _ (natToDigits_all_digit _) c hmem2)

theorem toFixed_no_comma (p : ℕ) (q : ℚ) : ∀ c ∈ toFixed p q, c ≠ ',' := by
  intro c hc
  rw [toFixed] at hc
  by_cases hq : q < 0
  · rw [if_pos hq] at hc
    rcases List.mem_cons.mp hc with rfl | hmem
    · decide
    · exact toFixedNonneg_no_comma p (-q) c hmem
  · rw [if_neg hq] at hc
    exact toFixedNonneg_no_comma p q c hc

theorem isEmpty_false_of_ne_nil {l : List Char} (h : l ≠ []) : l.isEmpty = false := by
  cases l with
  | nil => exact absurd rfl h
  | cons c rest => rfl

theorem numToken_of_some {t : Option (List Char)} {tok : List Char}
    (ht : t = some tok) (hne : tok ≠ []) : numToken t = some (jsNumber tok) := by
  rw [ht, numToken, if_neg]
  rw [isEmpty_false_of_ne_nil hne]
  simp

theorem numToken_of_blank {t : Option (List Char)}
    (ht : t = some [] ∨ t = none) : numToken t = none := by
  rcases ht with ht | ht <;> rw [ht, numToken] <;> rfl

theorem strToken_of_some {t : Option (List Char)} {tok : List Char}
    (ht : t = some tok) (hne : tok ≠ []) : strToken t = some tok := by
  rw [ht, strToken, if_neg]
  rw [isEmpty_false_of_ne_nil hne]
  simp

theorem strToken_of_blank {t : Option (List Char)}
    (ht : t = some [] ∨ t = none) : strToken t = none := by
  rcases ht with ht | ht <;> rw [ht, strToken] <;> rfl

theorem nonComma_of_not_mem {l : List Char} (h : ',' ∉ l) : ∀ c ∈ l, c ≠ ',' :=
  fun c hc hcon => h (hcon ▸ hc)

/-- C8: decoding an encoded fragment recovers lon and lat within `1e-5`,
zoom within `1e-2`, and the date, layer key and projection tokens exactly,
for every viewport state whose string tokens are nonempty and comma-free. -/
theorem permalink_roundtrip (lon lat zoom : ℚ) (d k pr : List Char)
    (hd : d ≠ []) (hdc : ',' ∉ d) (hk : k ≠ []) (hkc : ',' ∉ k)
    (hp : pr ≠ []) (hpc : ',' ∉ pr) :
    ∃ ql qa qz : ℚ,
      (readHash (writeHash lon lat zoom d k pr)).lon = some (JsNum.num ql) ∧
      (readHash (writeHash lon lat zoom d k pr)).lat = some (JsNum.num qa) ∧
      (readHash (writeHash lon lat zoom d k pr)).z = some (JsNum.num qz) ∧
      |ql - lon| ≤ 1 / 100000 ∧ |qa - lat| ≤ 1 / 100000 ∧ |qz - zoom| ≤ 1 / 100 ∧
      (readHash (writeHash lon lat zoom d k pr)).d = some d ∧
      (readHash (writeHash lon lat zoom d k pr)).k = some k ∧
      (readHash (writeHash lon lat zoom d k pr)).p = some pr := by
  have hstrip : removeFirstHashChar (writeHash lon lat zoom d k pr) =
      toFixed 5 lon ++ ',' :: (toFixed 5 lat ++ ',' ::
        (toFixed 2 zoom ++ ',' :: (d ++ ',' :: (k ++ ',' :: pr)))) := by
    rw [writeHash, removeFirstHashChar, if_pos rfl]
  have hsplit : jsSplit ',' (removeFirstHashChar (writeHash lon lat zoom d k pr)) =
      [toFixed 5 lon, toFixed 5 lat, toFixed 2 zoom, d, k, pr] := by
    rw [hstrip, jsSplit_append ',' _ _ (toFixed_no_comma 5 lon),
      jsSplit_append ',' _ _ (toFixed_no_comma 5 lat),
      jsSplit_append ',' _ _ (toFixed_no_comma 2 zoom),
      jsSplit_append ',' _ _ (nonComma_of_not_mem hdc),
      jsSplit_append ',' _ _ (nonComma_of_not_mem hkc),
      jsSplit_nosep ',' _ (nonComma_of_not_mem hpc)]
  have hne : (removeFirstHashChar (writeHash lon lat zoom d k pr)).isEmpty = false := by
    rw [hstrip]
    apply isEmpty_false_of_ne_nil
    intro hcon
    exact toFixed_ne_nil 5 lon (List.append_eq_nil.mp hcon).1
  have hopen : readHash (writeHash lon lat zoom d k pr) =
      { lon := numToken ((jsSplit ',' (removeFirstHashChar (writeHash lon lat zoom d k pr))).get? 0)
        lat := numToken ((jsSplit ',' (removeFirstHashChar (writeHash lon lat zoom d k pr))).get? 1)
        z := numToken ((jsSplit ',' (removeFirstHashChar (writeHash lon lat zoom d k pr))).get? 2)
        d := strToken ((jsSplit ',' (removeFirstHashChar (writeHash lon lat zoom d k pr))).get? 3)
        k := strToken ((jsSplit ',' (removeFirstHashChar (writeHash lon lat zoom d k pr))).get? 4)
        p := strToken ((jsSplit ',' (removeFirstHashChar (writeHash lon lat zoom d k pr))).get? 5) } := by
    rw [readHash, hne]
    simp
  refine ⟨fixedRound 5 lon, fixedRound 5 lat, fixedRound 2 zoom, ?_, ?_, ?_, ?_, ?_, ?_, ?_, ?_, ?_⟩
  · rw [hopen]
    show numToken _ = _
    rw [numToken_of_some (by rw [hsplit]; rfl) (toFixed_ne_nil 5 lon),
      jsNumber_toFixed 5 lon (by norm_num)]
  · rw [hopen]
    show numToken _ = _
    rw [numToken_of_some (by rw [hsplit]; rfl) (toFixed_ne_nil 5 lat),
      jsNumber_toFixed 5 lat (by norm_num)]
  · rw [hopen]
    show numToken _ = _
    rw [numToken_of_some (by rw [hsplit]; rfl) (toFixed_ne_nil 2 zoom),
      jsNumber_toFixed 2 zoom (by norm_num)]
  · calc |fixedRound 5 lon - lon| ≤ 1 / (2 * 10 ^ 5) := fixedRound_bound 5 lon
      _ ≤ 1 / 100000 := by norm_num
  · calc |fixedRound 5 lat - lat| ≤ 1 / (2 * 10 ^ 5) := fixedRound_bound 5 lat
      _ ≤ 1 / 100000 := by norm_num
  · calc |fixedRound 2 zoom - zoom| ≤ 1 / (2 * 10 ^ 2) := fixedRound_bound 2 zoom
      _ ≤ 1 / 100 := by norm_num
  · rw [hopen]
    show strToken _ = _
    rw [strToken_of_some (by rw [hsplit]; rfl) hd]
  · rw [hopen]
    show strToken _ = _
    rw [strToken_of_some (by rw [hsplit]; rfl) hk]
  · rw [hopen]
    show strToken _ = _
    rw [strToken_of_some (by rw [hsplit]; rfl) hp]

/-- C8 witness: the round-trip theorem instantiated at the concrete viewport
state `(10.5, 20.25, 3, "2024-01-01", "gibs:MODIS_Terra", "EPSG:3857")`. -/
theorem permalink_roundtrip_witness :
    ∃ ql qa qz : ℚ,
      (readHash (writeHash (21/2) (81/4) 3 ("2024-01-01").toList ("gibs:MODIS_Terra").toList ("EPSG:3857").toList)).lon = some (JsNum.num ql) ∧
      (readHash (writeHash (21/2) (81/4) 3 ("2024-01-01").toList ("gibs:MODIS_Terra").toList ("EPSG:3857").toList)).lat = some (JsNum.num qa) ∧
      (readHash (writeHash (21/2) (81/4) 3 ("2024-01-01").toList ("gibs:MODIS_Terra").toList ("EPSG:3857").toList)).z = some (JsNum.num qz) ∧
      |ql - 21/2| ≤ 1 / 100000 ∧ |qa - 81/4| ≤ 1 / 100000 ∧ |qz - 3| ≤ 1 / 100 ∧
      (readHash (writeHash (21/2) (81/4) 3 ("2024-01-01").toList ("gibs:MODIS_Terra").toList ("EPSG:3857").toList)).d = some ("2024-01-01").toList ∧
      (readHash (writeHash (21/2) (81/4) 3 ("2024-01-01").toList ("gibs:MODIS_Terra").toList ("EPSG:3857").toList)).k = some ("gibs:MODIS_Terra").toList ∧
      (readHash (writeHash (21/2) (81/4) 3 ("2024-01-01").toList ("gibs:MODIS_Terra").toList ("EPSG:3857").toList)).p = some ("EPSG:3857").toList :=
  permalink_roundtrip (21/2) (81/4) 3 _ _ _ (by decide) (by decide) (by decide)
    (by decide) (by decide) (by decide)

/-- C7 counterexample: the fragment `"abc"` has a first token that fails
numeric parsing, yet the decoded `lon` field is `NaN`, not `undefined` —
`readHash` assigns `Number(tok)` to any non-empty token. -/
theorem readHash_nan_not_undefined :
    (readHash ("abc").toList).lon = some JsNum.nan ∧
    (readHash ("abc").toList).lon ≠ none := by decide

/-- C7 (amended): decoding splits on commas and never fails; a missing or
empty token yields `undefined` for its field; a non-empty token in a numeric
slot yields the JS `Number` value of the token (which is `NaN`, not
`undefined` and not an error, when parsing fails); a non-empty token in a
string slot is kept verbatim; an empty fragment decodes to the empty
state. -/
theorem readHash_token_tolerance (hash : List Char) :
    (removeFirstHashChar hash = [] → readHash hash = ⟨none, none, none, none, none, none⟩) ∧
    (∀ tok, (jsSplit ',' (removeFirstHashChar hash)).get? 0 = some tok → tok ≠ [] →
      (readHash hash).lon = some (jsNumber tok)) ∧
    ((jsSplit ',' (removeFirstHashChar hash)).get? 0 = some [] ∨
      (jsSplit ',' (removeFirstHashChar hash)).get? 0 = none → (readHash hash).lon = none) ∧
    (∀ tok, (jsSplit ',' (removeFirstHashChar hash)).get? 1 = some tok → tok ≠ [] →
      (readHash hash).lat = some (jsNumber tok)) ∧
    ((jsSplit ',' (removeFirstHashChar hash)).get? 1 = some [] ∨
      (jsSplit ',' (removeFirstHashChar hash)).get? 1 = none → (readHash hash).lat = none) ∧
    (∀ tok, (jsSplit ',' (removeFirstHashChar hash)).get? 2 = some tok → tok ≠ [] →
      (readHash hash).z = some (jsNumber tok)) ∧
    ((jsSplit ',' (removeFirstHashChar hash)).get? 2 = some [] ∨
      (jsSplit ',' (removeFirstHashChar hash)).get? 2 = none → (readHash hash).z = none) ∧
    (∀ tok, (jsSplit ',' (removeFirstHashChar hash)).get? 3 = some tok → tok ≠ [] →
      (readHash hash).d = some tok) ∧
    ((jsSplit ',' (removeFirstHashChar hash)).get? 3 = some [] ∨
      (jsSplit ',' (removeFirstHashChar hash)).get? 3 = none → (readHash hash).d = none) ∧
    (∀ tok, (jsSplit ',' (removeFirstHashChar hash)).get? 4 = some tok → tok ≠ [] →
      (readHash hash).k = some tok) ∧
    ((jsSplit ',' (removeFirstHashChar hash)).get? 4 = some [] ∨
      (jsSplit ',' (removeFirstHashChar hash)).get? 4 = none → (readHash hash).k = none) ∧
    (∀ tok, (jsSplit ',' (removeFirstHashChar hash)).get? 5 = some tok → tok ≠ [] →
      (readHash hash).p = some tok) ∧
    ((jsSplit ',' (removeFirstHashChar hash)).get? 5 = some [] ∨
      (jsSplit ',' (removeFirstHashChar hash)).get? 5 = none → (readHash hash).p = none) := by
  by_cases hemp : removeFirstHashChar hash = []
  · have hsplit : jsSplit ',' (removeFirstHashChar hash) = [[]] := by rw [hemp]; rfl
    have hrh : readHash hash = ⟨none, none, none, none, none, none⟩ := by
      rw [readHash, hemp]
      rfl
    refine ⟨fun _ => hrh, ?_, fun _ => by rw [hrh], ?_, fun _ => by rw [hrh],
      ?_, fun _ => by rw [hrh], ?_, fun _ => by rw [hrh],
      ?_, fun _ => by rw [hrh], ?_, fun _ => by rw [hrh]⟩ <;>
    · intro tok htok hne
      rw [hsplit] at htok
      first
      | exact absurd (Option.some_injective _ htok).symm hne
      | exact absurd htok (by simp)
  · have hne := isEmpty_false_of_ne_nil hemp
    have hopen : readHash hash =
        { lon := numToken ((jsSplit ',' (removeFirstHashChar hash)).get? 0)
          lat := numToken ((jsSplit ',' (removeFirstHashChar hash)).get? 1)
          z := numToken ((jsSplit ',' (removeFirstHashChar hash)).get? 2)
          d := strToken ((jsSplit ',' (removeFirstHashChar hash)).get? 3)
          k := strToken ((jsSplit ',' (removeFirstHashChar hash)).get? 4)
          p := strToken ((jsSplit ',' (removeFirstHashChar hash)).get? 5) } := by
      rw [readHash, hne]
      simp
    refine ⟨fun hcon => absurd hcon hemp, ?_, ?_, ?_, ?_, ?_, ?_, ?_, ?_, ?_, ?_, ?_, ?_⟩ <;>
      rw [hopen]
    · exact fun tok htok hne2 => numToken_of_some htok hne2
    · exact fun h => numToken_of_blank h
    · exact fun tok htok hne2 => numToken_of_some htok hne2
    · exact fun h => numToken_of_blank h
    · exact fun tok htok hne2 => numToken_of_some htok hne2
    · exact fun h => numToken_of_blank h
    · exact fun tok htok hne2 => strToken_of_some htok hne2
    · exact fun h => strToken_of_blank h
    · exact fun tok htok hne2 => strToken_of_some htok hne2
    · exact fun h => strToken_of_blank h
    · exact fun tok htok hne2 => strToken_of_some htok hne2
    · exact fun h => strToken_of_blank h

/-- C7 witness: the amended tolerance theorem applied to the fragment
`",,10.5,,x"` — the zoom slot parses, lon and lat are `undefined`, the layer
key is kept verbatim and the projection slot is absent. -/
theorem readHash_token_tolerance_witness :
    (readHash (",,10.5,,x").toList).z = some (jsNumber ("10.5").toList) ∧
    (readHash (",,10.5,,x").toList).lon = none ∧
    (readHash (",,10.5,,x").toList).k = some ("x").toList ∧
    (readHash (",,10.5,,x").toList).p = none := by
  obtain ⟨-, -, hlon, -, -, hz, -, -, -, hk, -, -, hp⟩ :=
    readHash_token_tolerance (",,10.5,,x").toList
  exact ⟨hz ("10.5").toList (by decide) (by decide), hlon (Or.inl (by decide)),
    hk ("x").toList (by decide) (by decide), hp (Or.inr (by decide))⟩

/-- Tile source load events observed by `attachTileLoadEvents`. -/
inductive TileEvent where
  | loadStart
  | loadEnd
  | loadError
deriving DecidableEq, Repr

/-- The `(tilePending, tileErrors)` React state pair updated by the tile
load handlers. -/
structure TileCounters where
  tilePending : ℤ
  tileErrors : ℤ
deriving DecidableEq, Repr

/-- One handler invocation of `attachTileLoadEvents` (src/unnamed/part_004
lines 211-226, identical in src/src/components/Map.tsx lines 363-378):
`tileloadstart` runs `p ↦ p + 1`, `tileloadend` runs `p ↦ Math.max(0, p-1)`,
and `tileloaderror` runs the same clamped decrement plus `e ↦ e + 1`. -/
def tileLoadStep (s : TileCounters) (e : TileEvent) : TileCounters :=
  match e with
  | .loadStart => { s with tilePending := s.tilePending + 1 }
  | .loadEnd => { s with tilePending := max 0 (s.tilePending - 1) }
  | .loadError =>
    { tilePending := max 0 (s.tilePending - 1), tileErrors := s.tileErrors + 1 }

/-- Counters after a sequence of tile load events, starting from the
initial `useState(0)` values. -/
def runTileEvents (evs : List TileEvent) : TileCounters :=
  evs.foldl tileLoadStep ⟨0, 0⟩

theorem tilePending_foldl_nonneg (evs : List TileEvent) (s : TileCounters)
    (hs : 0 ≤ s.tilePending) : 0 ≤ (evs.foldl tileLoadStep s).tilePending := by
  induction evs generalizing s with
  | nil => exact hs
  | cons e rest ih =>
    rw [List.foldl_cons]
    apply ih
    cases e with
    | loadStart => simp only [tileLoadStep]; omega
    | loadEnd => exact le_max_left 0 _
    | loadError => exact le_max_left 0 _

/-- C9: for every sequence of tile load-start / load-end / load-error
events, the pending counter stays nonnegative, because each decrement is
clamped at zero — even when end/error events outnumber start events. -/
theorem tilePending_never_negative (evs : List TileEvent) :
    0 ≤ (runTileEvents evs).tilePending :=
  tilePending_foldl_nonneg evs ⟨0, 0⟩ le_rfl

/-- JS dynamic values, as far as the api client manipulates them. -/
inductive JSVal where
  | undefined
  | null
  | bool (b : Bool)
  | num (x : JsNum)
  | str (s : String)
  | obj (fields : List (String × JSVal))
  | arr (elems : List JSVal)
deriving Repr

/-- JS truthiness. -/
def jsTruthy : JSVal → Bool
  | .undefined => false
  | .null => false
  | .bool b => b
  | .num .nan => false
  | .num (.num q) => decide (q ≠ 0)
  | .str s => !s.isEmpty
  | .obj _ => true
  | .arr _ => true

/-- JS `typeof`. -/
def jsTypeof : JSVal → String
  | .undefined => "undefined"
  | .null => "object"
  | .bool _ => "boolean"
  | .num _ => "number"
  | .str _ => "string"
  | .obj _ => "object"
  | .arr _ => "object"

/-- JS property access `v.name` on the values this client reads fields
from: a lookup on objects, `undefined` on arrays and primitives (the code
only accesses fields after guarding `typeof v === "object"`). -/
def getField (v : JSVal) (name : String) : JSVal :=
  match v with
  | .obj fields =>
    match fields.lookup name with
    | some x => x
    | none => .undefined
  | _ => .undefined

/-- Fraction digits of a rational in `[0,1)`, most significant first,
bounded by fuel (a JS double never needs more than 17 significant digits;
non-terminating rationals cannot arise from host floats). -/
def fracDigits : ℕ → ℚ → List Char
  | 0, _ => []
  | fuel + 1, q =>
    if q = 0 then []
    else
      let d := (Int.floor (q * 10)).toNat
      digitChar d :: fracDigits fuel (q * 10 - Int.floor (q * 10))

/-- JS number-to-string for a nonnegative rational. -/
def jsNumToStringNonneg (q : ℚ) : String :=
  let ip := (Int.floor q).toNat
  let fp := q - Int.floor q
  if fp = 0 then ⟨natToDigits ip⟩
  else ⟨natToDigits ip ++ '.' :: fracDigits 20 fp⟩

/-- JS number-to-string (`String(x)` on a number). -/
def jsNumToString (x : JsNum) : String :=
  match x with
  | .nan => "NaN"
  | .num q => if q < 0 then "-" ++ jsNumToStringNonneg (-q) else jsNumToStringNonneg q

mutual

/-- JS `String(v)` conversion. -/
def jsToString : JSVal → String
  | .undefined => "undefined"
  | .null => "null"
  | .bool b => if b then "true" else "false"
  | .num x => jsNumToString x
  | .str s => s
  | .obj _ => "[object Object]"
  | .arr elems => String.intercalate "," (jsToStringElems elems)

/-- `Array.prototype.join(",")` element conversion: `null` and `undefined`
elements render as the empty string. -/
def jsToStringElems : List JSVal → List String
  | [] => []
  | .undefined :: rest => "" :: jsToStringElems rest
  | .null :: rest => "" :: jsToStringElems rest
  | v :: rest => jsToString v :: jsToStringElems rest

end

mutual

/-- `JSON.stringify`, modelled structurally: objects and arrays recurse,
`undefined`-valued object fields are skipped, `undefined` array elements
and `NaN` render as `null`.  String escaping of exotic characters is not
modelled — every key and value this client serializes is plain text. -/
def jsonStringify : JSVal → String
  | .undefined => ""
  | .null => "null"
  | .bool b => if b then "true" else "false"
  | .num .nan => "null"
  | .num (.num q) => jsNumToString (.num q)
  | .str s => "\"" ++ s ++ "\""
  | .obj fields => "\x7b" ++ String.intercalate "," (jsonFields fields) ++ "\x7d"
  | .arr elems => "[" ++ String.intercalate "," (jsonElems elems) ++ "]"

/-- Serialized `key:value` items of an object, skipping undefined values. -/
def jsonFields : List (String × JSVal) → List String
  | [] => []
  | (_k, .undefined) :: rest => jsonFields rest
  | (key, v) :: rest => ("\"" ++ key ++ "\":" ++ jsonStringify v) :: jsonFields rest

/-- Serialized array elements, `undefined` rendered as `null`. -/
def jsonElems : List JSVal → List String
  | [] => []
  | .undefined :: rest => "null" :: jsonElems rest
  | v :: rest => jsonStringify v :: jsonElems rest

end

/-- `toUpperCase` on an ASCII character. -/
def asciiUpperChar (c : Char) : Char :=
  if 97 ≤ c.toNat && c.toNat ≤ 122 then Char.ofNat (c.toNat - 32) else c

/-- JS `String.prototype.toUpperCase` (the client only upcases ASCII HTTP
method names). -/
def jsToUpperCase (s : String) : String := s.map asciiUpperChar

/-- `DEFAULT_BASE` of the api client in production builds. -/
def API_BASE_URL : String := "https://api.nasa.qminds.io"

/-- `resolveUrl` from src/unnamed/part_001 lines 785-788. -/
def resolveUrl (path : String) : String :=
  let normalized := if path.startsWith "/" then path else "/" ++ path
  API_BASE_URL ++ normalized

/-- `buildCacheKey` from src/unnamed/part_001 lines 790-792:
`method.toUpperCase() :: url :: serialized body` (a falsy body serializes
to the empty string). -/
def buildCacheKey (method url : String) (body : JSVal) : String :=
  jsToUpperCase method ++ "::" ++ url ++ "::" ++
    (if jsTruthy body then jsonStringify body else "")

/-- One dispatched `fetch` invocation. -/
structure NetCall where
  method : String
  url : String
  body : JSVal
deriving Repr

/-- Module state of the api client (src/unnamed/part_001): `pendingCache`
maps cache keys to in-flight promises (modelled by numeric identities), the
log of underlying `fetch` calls actually dispatched, and a fresh-promise
counter. -/
structure NetState where
  pendingCache : List (String × ℕ)
  calls : List NetCall
  nextPromise : ℕ
deriving Repr

def emptyNetState : NetState := ⟨[], [], 0⟩

/-- `request` from src/unnamed/part_001 lines 794-854, as a state
transition returning the promise identity handed to the caller.  When
`useCache` holds and an identical key is in flight, the cached promise is
returned and no `fetch` happens; otherwise a `fetch` is dispatched and,
when `useCache` holds, recorded in `pendingCache` under the key. -/
def request (s : NetState) (method path : String) (body : JSVal)
    (useCache : Bool) : NetState × ℕ :=
  let url := resolveUrl path
  let cacheKey := if useCache then some (buildCacheKey method url body) else none
  match cacheKey with
  | some key =>
    match s.pendingCache.lookup key with
    | some p => (s, p)
    | none =>
      let p := s.nextPromise
      ({ pendingCache := (key, p) :: s.pendingCache
         calls := s.calls ++ [⟨method, url, body⟩]
         nextPromise := p + 1 }, p)
  | none =>
    let p := s.nextPromise
    ({ s with calls := s.calls ++ [⟨method, url, body⟩], nextPromise := p + 1 }, p)

/-- `request` with the source's default `useCache = method === "GET"`
(src/unnamed/part_001 line 809). -/
def requestAuto (s : NetState) (method path : String) (body : JSVal) : NetState × ℕ :=
  request s method path body (method == "GET")

/-- The `.finally` of the fetch promise: `pendingCache.delete(cacheKey)`
when a key was recorded, on success and on failure alike. -/
def settlePromise (s : NetState) (cacheKey : Option String) : NetState :=
  match cacheKey with
  | some key => { s with pendingCache := s.pendingCache.eraseP (fun kv => kv.1 == key) }
  | none => s

/-- `n` identical calls issued back to back with none of them settled in
between (single-threaded concurrency: each caller runs `request` before the
first response arrives). -/
def issueRepeat (s : NetState) (method path : String) (body : JSVal) :
    ℕ → NetState × List ℕ
  | 0 => (s, [])
  | n + 1 =>
    let r1 := requestAuto s method path body
    let r2 := issueRepeat r1.1 method path body n
    (r2.1, r1.2 :: r2.2)

theorem requestAuto_get_hit (s : NetState) (path : String) (body : JSVal) (p : ℕ)
    (h : s.pendingCache.lookup (buildCacheKey "GET" (resolveUrl path) body) = some p) :
    requestAuto s "GET" path body = (s, p) := by
  rw [requestAuto, request]
  simp only [show ("GET" == "GET") = true from rfl, if_true, h]

theorem requestAuto_get_miss (s : NetState) (path : String) (body : JSVal)
    (h : s.pendingCache.lookup (buildCacheKey "GET" (resolveUrl path) body) = none) :
    requestAuto s "GET" path body =
      ({ pendingCache := (buildCacheKey "GET" (resolveUrl path) body, s.nextPromise) :: s.pendingCache
         calls := s.calls ++ [⟨"GET", resolveUrl path, body⟩]
         nextPromise := s.nextPromise + 1 }, s.nextPromise) := by
  rw [requestAuto, request]
  simp only [show ("GET" == "GET") = true from rfl, if_true, h]

theorem issueRepeat_hit (s : NetState) (path : String) (body : JSVal) (p : ℕ) (n : ℕ)
    (h : s.pendingCache.lookup (buildCacheKey "GET" (resolveUrl path) body) = some p) :
    issueRepeat s "GET" path body n = (s, List.replicate n p) := by
  induction n with
  | zero => rfl
  | succ m ih =>
    rw [issueRepeat, requestAuto_get_hit s path body p h, ih, List.replicate_succ]

/-- C5: for every `n ≥ 2` concurrent identical GET requests issued before
the first settles, exactly one underlying network call is dispatched and
every caller receives the same promise; settling removes the cache entry so
an identical call issued afterwards re-executes; and a non-GET call is
never deduplicated by default — it always dispatches a network call. -/
theorem request_dedup_single_flight (s0 : NetState) (path : String) (body : JSVal) (n : ℕ)
    (hn : 2 ≤ n)
    (hmiss : s0.pendingCache.lookup (buildCacheKey "GET" (resolveUrl path) body) = none) :
    (issueRepeat s0 "GET" path body n).1.calls.length = s0.calls.length + 1 ∧
    (issueRepeat s0 "GET" path body n).2 = List.replicate n s0.nextPromise ∧
    (settlePromise (issueRepeat s0 "GET" path body n).1
        (some (buildCacheKey "GET" (resolveUrl path) body))).pendingCache.lookup
        (buildCacheKey "GET" (resolveUrl path) body) = s0.pendingCache.lookup
        (buildCacheKey "GET" (resolveUrl path) body) ∧
    (requestAuto (settlePromise (issueRepeat s0 "GET" path body n).1
        (some (buildCacheKey "GET" (resolveUrl path) body))) "GET" path body).1.calls.length =
      s0.calls.length + 2 ∧
    (∀ method : String, method ≠ "GET" → ∀ s : NetState,
      (requestAuto s method path body).1.calls =
        s.calls ++ [⟨method, resolveUrl path, body⟩]) := by
  obtain ⟨m, rfl⟩ : ∃ m, n = m + 1 := ⟨n - 1, by omega⟩
  have hstep := requestAuto_get_miss s0 path body hmiss
  have hs1hit : ((buildCacheKey "GET" (resolveUrl path) body, s0.nextPromise) ::
      s0.pendingCache).lookup (buildCacheKey "GET" (resolveUrl path) body) =
      some s0.nextPromise := by
    rw [List.lookup_cons]
    simp
  have hrun : issueRepeat s0 "GET" path body (m + 1) =
      ({ pendingCache := (buildCacheKey "GET" (resolveUrl path) body, s0.nextPromise) :: s0.pendingCache
         calls := s0.calls ++ [⟨"GET", resolveUrl path, body⟩]
         nextPromise := s0.nextPromise + 1 }, List.replicate (m + 1) s0.nextPromise) := by
    rw [issueRepeat, hstep]
    rw [issueRepeat_hit _ path body s0.nextPromise m hs1hit]
    rw [List.replicate_succ]
  have hsettle : settlePromise (issueRepeat s0 "GET" path body (m + 1)).1
      (some (buildCacheKey "GET" (resolveUrl path) body)) =
      { pendingCache := s0.pendingCache
        calls := s0.calls ++ [⟨"GET", resolveUrl path, body⟩]
        nextPromise := s0.nextPromise + 1 } := by
    rw [hrun, settlePromise]
    simp [List.eraseP_cons]
  refine ⟨?_, ?_, ?_, ?_, ?_⟩
  · rw [hrun]
    simp
  · rw [hrun]
  · rw [hsettle]
  · rw [hsettle]
    rw [requestAuto_get_miss
      { pendingCache := s0.pendingCache
        calls := s0.calls ++ [⟨"GET", resolveUrl path, body⟩]
        nextPromise := s0.nextPromise + 1 } path body hmiss]
    simp
  · intro method hm s
    have hbeq : (method == "GET") = false := by
      rw [beq_eq_false_iff_ne]
      exact hm
    rw [requestAuto, request]
    simp [hbeq]

/-- C5 witness: two identical GET requests for the layer catalog from the
pristine client state produce one network call, both callers sharing
promise 0, and a third call after settling re-executes. -/
theorem request_dedup_single_flight_witness :
    (issueRepeat emptyNetState "GET" "/v1/layers" JSVal.undefined 2).1.calls.length =
        emptyNetState.calls.length + 1 ∧
    (issueRepeat emptyNetState "GET" "/v1/layers" JSVal.undefined 2).2 =
        List.replicate 2 emptyNetState.nextPromise ∧
    (requestAuto (settlePromise (issueRepeat emptyNetState "GET" "/v1/layers" JSVal.undefined 2).1
        (some (buildCacheKey "GET" (resolveUrl "/v1/layers") JSVal.undefined))) "GET" "/v1/layers"
        JSVal.undefined).1.calls.length = emptyNetState.calls.length + 2 := by
  obtain ⟨h1, h2, -, h4, -⟩ :=
    request_dedup_single_flight emptyNetState "/v1/layers" JSVal.undefined 2 (by norm_num) rfl
  exact ⟨h1, h2, h4⟩

/-- Module state of src/src/services/layers.ts: the memoized `catalogCache`
value, the in-flight `catalogPromise` (a numeric promise identity), and a
count of catalog fetches actually started.  `α` is the catalog payload
type. -/
structure CatalogState (α : Type) where
  catalogCache : Option α
  catalogPromise : Option ℕ
  fetchesStarted : ℕ
deriving Repr

/-- What a `getLayerCatalog()` caller receives: the already-resolved cached
catalog, or a (possibly shared) in-flight promise. -/
inductive CatalogResult (α : Type) where
  | value (c : α)
  | pending (p : ℕ)
deriving DecidableEq, Repr

/-- `getLayerCatalog` from src/src/services/layers.ts lines 23-42: unless
`force` is set, a cached catalog is returned as-is and an in-flight promise
is shared; otherwise a new fetch starts and its promise is stored in
`catalogPromise`. -/
def getLayerCatalog {α : Type} (force : Bool) (s : CatalogState α) :
    CatalogState α × CatalogResult α :=
  match s.catalogCache, force with
  | some c, false => (s, .value c)
  | _, _ =>
    match s.catalogPromise, force with
    | some p, false => (s, .pending p)
    | _, _ =>
      let p := s.fetchesStarted
      ({ s with catalogPromise := some p, fetchesStarted := p + 1 }, .pending p)

/-- Resolution of the catalog fetch promise: the `.then` stores the catalog
in `catalogCache` and the `.finally` clears `catalogPromise`. -/
def resolveCatalogSuccess {α : Type} (s : CatalogState α) (c : α) : CatalogState α :=
  { s with catalogCache := some c, catalogPromise := none }

/-- Rejection of the catalog fetch promise: `.then` is skipped (the cache
is untouched) and the `.finally` still clears `catalogPromise`. -/
def resolveCatalogFailure {α : Type} (s : CatalogState α) : CatalogState α :=
  { s with catalogPromise := none }

/-- `resetLayerCatalogCache` from src/src/services/layers.ts lines 61-64. -/
def resetLayerCatalogCache {α : Type} (s : CatalogState α) : CatalogState α :=
  { s with catalogCache := none, catalogPromise := none }

/-- C6: (i) a cached catalog is served forever without a new fetch until an
explicit reset; (ii) callers arriving while the first fetch is pending share
that pending promise without a new fetch; (iii) after the first fetch from a
clean state fails, the cache is not poisoned — the next call starts a fresh
fetch; and from a clean state a successful fetch is memoized, while a reset
after success makes the next call fetch again. -/
theorem catalog_cache_lifecycle {α : Type} (s : CatalogState α) :
    (∀ c, s.catalogCache = some c → getLayerCatalog false s = (s, .value c)) ∧
    (∀ p, s.catalogCache = none → s.catalogPromise = some p →
      getLayerCatalog false s = (s, .pending p)) ∧
    (s.catalogCache = none → s.catalogPromise = none →
      (getLayerCatalog false (resolveCatalogFailure (getLayerCatalog false s).1)).1.fetchesStarted =
        s.fetchesStarted + 2) ∧
    (∀ c, s.catalogCache = none → s.catalogPromise = none →
      getLayerCatalog false
          (resolveCatalogSuccess (getLayerCatalog false s).1 c) =
        (resolveCatalogSuccess (getLayerCatalog false s).1 c, .value c)) ∧
    (∀ c, getLayerCatalog false
        (resetLayerCatalogCache (resolveCatalogSuccess s c)) =
      ({ catalogCache := none, catalogPromise := some s.fetchesStarted
         fetchesStarted := s.fetchesStarted + 1 },
        .pending s.fetchesStarted)) := by
  refine ⟨?_, ?_, ?_, ?_, ?_⟩
  · intro c hc
    simp [getLayerCatalog, hc]
  · intro p hc hp
    simp [getLayerCatalog, hc, hp]
  · intro hc hp
    simp [getLayerCatalog, hc, hp, resolveCatalogFailure]
  · intro c hc hp
    simp [getLayerCatalog, hc, hp, resolveCatalogSuccess]
  · intro c
    simp [getLayerCatalog, resolveCatalogSuccess, resetLayerCatalogCache]

/-- C6 witness: the lifecycle theorem at the pristine module state with a
concrete catalog payload. -/
theorem catalog_cache_lifecycle_witness :
    ((⟨none, none, 0⟩ : CatalogState ℕ).catalogCache = none →
      (⟨none, none, 0⟩ : CatalogState ℕ).catalogPromise = none →
      (getLayerCatalog false (resolveCatalogFailure
        (getLayerCatalog false (⟨none, none, 0⟩ : CatalogState ℕ)).1)).1.fetchesStarted =
        (⟨none, none, 0⟩ : CatalogState ℕ).fetchesStarted + 2) ∧
    (getLayerCatalog false (resolveCatalogSuccess
        (getLayerCatalog false (⟨none, none, 0⟩ : CatalogState ℕ)).1 7) =
      (resolveCatalogSuccess (getLayerCatalog false (⟨none, none, 0⟩ : CatalogState ℕ)).1 7,
        .value 7)) :=
  ⟨(catalog_cache_lifecycle (⟨none, none, 0⟩ : CatalogState ℕ)).2.2.1,
    (catalog_cache_lifecycle (⟨none, none, 0⟩ : CatalogState ℕ)).2.2.2.1 7 rfl rfl⟩

/-- JS whitespace recognised by `String.prototype.trim` (the common ASCII
set plus NBSP; other exotic Unicode space code points do not occur in this
client's data). -/
def isJsSpace (c : Char) : Bool :=
  c = ' ' || c = '\t' || c = '\n' || c = '\r' ||
    c.toNat = 11 || c.toNat = 12 || c.toNat = 160

/-- JS `String.prototype.trim`. -/
def jsTrim (s : String) : String :=
  ⟨((s.data.dropWhile isJsSpace).reverse.dropWhile isJsSpace).reverse⟩

/-- `pickString` from src/unnamed/part_001 lines 856-863: the first
argument that is a string with a nonempty trim, trimmed. -/
def pickString : List JSVal → Option String
  | [] => none
  | v :: rest =>
    match v with
    | .str s => if (jsTrim s).isEmpty then pickString rest else some (jsTrim s)
    | _ => pickString rest

/-- `pickNumber` from src/unnamed/part_001 lines 865-873: the first
argument that is a finite number, or a string whose JS `Number` conversion
is finite (every rational in this model stands for a finite double). -/
def pickNumber : List JSVal → Option ℚ
  | [] => none
  | v :: rest =>
    match (match v with
           | .num x => x
           | .str s => jsNumber s.data
           | _ => JsNum.nan) with
    | .num q => some q
    | .nan => pickNumber rest

/-- Hexadecimal digit character, uppercase as `encodeURIComponent` emits. -/
def hexUpperChar (d : ℕ) : Char :=
  if d < 10 then digitChar d else Char.ofNat (65 + (d - 10))

/-- Characters `encodeURIComponent` leaves unescaped. -/
def uriUnreserved (c : Char) : Bool :=
  c.isAlphanum || c = '-' || c = '_' || c = '.' || c = '!' || c = '~' ||
    c = '*' || c = '\'' || c = '(' || c = ')'

/-- `encodeURIComponent` over the ASCII range this client feeds it
(server-assigned ids and ISO dates); non-ASCII characters, which would
percent-encode per UTF-8 byte, are kept verbatim in the model. -/
def encodeURIComponent (s : String) : String :=
  ⟨s.data.foldr (fun c acc =>
    (if uriUnreserved c then [c]
     else if c.toNat < 128 then ['%', hexUpperChar (c.toNat / 16), hexUpperChar (c.toNat % 16)]
     else [c]) ++ acc) []⟩

/-- `VITE_ANNOTATION_DELETE_SECRET ?? ""`: unset in the environments this
client ships with. -/
def DELETE_SECRET : String := ""

/-- The `?secret=` query suffix of a delete call: present only when a
secret resolves (the `URLSearchParams` serialization of the single
`secret` entry). -/
def deleteSuffix (secret : Option String) : String :=
  match pickString
    [(match secret with | some x => JSVal.str x | none => JSVal.undefined), .str DELETE_SECRET] with
  | some sec => "?secret=" ++ encodeURIComponent sec
  | none => ""

/-- `deleteAnnotation` from src/unnamed/part_001 lines 1196-1211 (suffixed
`Req` here): resolve the secret, build the `?secret=` query when one is
present, and issue an uncached DELETE — always a real network call. -/
def deleteAnnotationReq (s : NetState) (id : String) (secret : Option String) :
    NetState × ℕ :=
  request s "DELETE" ("/v1/annotations/" ++ encodeURIComponent id ++ deleteSuffix secret)
    .undefined false

/-- An annotation entity as the delete path sees it: the server-assigned id
when the entity has been persisted, and an opaque geometry handle. -/
structure FeatureA where
  fid : Option String
  geom : ℕ
deriving DecidableEq, Repr

/-- The world the delete flow acts on: the api-client network state and the
local vector-source entity list. -/
structure AnnotWorld where
  net : NetState
  features : List FeatureA
deriving Repr

/-- Modelled from the spec: the body of `removeFeature` is missing from the
sources — src/src/components/Map.tsx's `deleteSelected` (lines 798-821)
awaits it per feature and surfaces failures, and the `deleteAnnotation` api
wrapper it relies on survives in src/unnamed/part_001, but the function
body itself was sliced out of Map.tsx.  Spec §4.5: "if the target entity
has a server `id`, issue an explicit delete call before removing it
locally; if the call fails, the local entity is **not** removed and the
failure is surfaced. If the entity has no server `id` yet (never
persisted), removal is purely local with no network call."  `remoteOk`
stands for the outcome of the server's DELETE; the returned flag is the
per-feature success that `deleteSelected` collects into its failure
list. -/
def removeFeature (w : AnnotWorld) (i : ℕ) (remoteOk : Bool) : AnnotWorld × Bool :=
  match w.features.get? i with
  | none => (w, true)
  | some f =>
    match f.fid with
    | some id =>
      let net1 := (deleteAnnotationReq w.net id none).1
      if remoteOk then ({ net := net1, features := w.features.eraseIdx i }, true)
      else ({ w with net := net1 }, false)
    | none => ({ w with features := w.features.eraseIdx i }, true)

/-- C4: deleting an entity that has a server id issues exactly one explicit
uncached DELETE call for that id; if the call fails the entity stays in the
local set and the failure is surfaced (the success flag is false); if it
succeeds the entity is removed.  Deleting a never-persisted entity (no
server id) removes it locally with the network state untouched — zero
network calls. -/
theorem delete_semantics (w : AnnotWorld) (i : ℕ) (f : FeatureA)
    (hf : w.features.get? i = some f) :
    (∀ id, f.fid = some id →
      ((removeFeature w i true).1.features = w.features.eraseIdx i ∧
       (removeFeature w i true).1.net.calls = w.net.calls ++
         [⟨"DELETE", resolveUrl ("/v1/annotations/" ++ encodeURIComponent id), .undefined⟩] ∧
       (removeFeature w i true).2 = true) ∧
      ((removeFeature w i false).1.features = w.features ∧
       (removeFeature w i false).1.net.calls = w.net.calls ++
         [⟨"DELETE", resolveUrl ("/v1/annotations/" ++ encodeURIComponent id), .undefined⟩] ∧
       (removeFeature w i false).2 = false)) ∧
    (f.fid = none →
      ∀ ok, (removeFeature w i ok).1.net = w.net ∧
        (removeFeature w i ok).1.features = w.features.eraseIdx i ∧
        (removeFeature w i ok).2 = true) := by
  constructor
  · intro id hid
    have hsuffix : deleteSuffix none = "" := rfl
    have hcall : deleteAnnotationReq w.net id none =
        ({ w.net with
            calls := w.net.calls ++
              [⟨"DELETE", resolveUrl ("/v1/annotations/" ++ encodeURIComponent id), .undefined⟩]
            nextPromise := w.net.nextPromise + 1 }, w.net.nextPromise) := by
      rw [deleteAnnotationReq, hsuffix, String.append_empty, request]
      simp
    refine ⟨⟨?_, ?_, ?_⟩, ⟨?_, ?_, ?_⟩⟩ <;>
      simp only [removeFeature, hf, hid, hcall] <;> rfl
  · intro hid ok
    simp only [removeFeature, hf, hid]
    refine ⟨?_, ?_, ?_⟩ <;> trivial

/-- C4 witness: one persisted entity (server id "a1") and one never
persisted, in a world with a pristine network state. -/
theorem delete_semantics_witness :
    ((removeFeature ⟨emptyNetState, [⟨some "a1", 1⟩, ⟨none, 2⟩]⟩ 0 false).1.features =
      [⟨some "a1", 1⟩, ⟨none, 2⟩] ∧
     (removeFeature ⟨emptyNetState, [⟨some "a1", 1⟩, ⟨none, 2⟩]⟩ 0 false).2 = false) ∧
    ((removeFeature ⟨emptyNetState, [⟨some "a1", 1⟩, ⟨none, 2⟩]⟩ 1 true).1.net = emptyNetState ∧
     (removeFeature ⟨emptyNetState, [⟨some "a1", 1⟩, ⟨none, 2⟩]⟩ 1 true).2 = true) := by
  obtain ⟨hyes, -⟩ :=
    delete_semantics ⟨emptyNetState, [⟨some "a1", 1⟩, ⟨none, 2⟩]⟩ 0 ⟨some "a1", 1⟩ rfl
  obtain ⟨-, ⟨hfail1, -, hfail3⟩⟩ := hyes "a1" rfl
  obtain ⟨-, hno⟩ :=
    delete_semantics ⟨emptyNetState, [⟨some "a1", 1⟩, ⟨none, 2⟩]⟩ 1 ⟨none, 2⟩ rfl
  obtain ⟨hn1, -, hn3⟩ := hno rfl true
  exact ⟨⟨hfail1, hfail3⟩, ⟨hn1, hn3⟩⟩

/-- An OpenLayers vector `Feature` as the part_004 sync engine manipulates
it: `getId()` (set from server responses, string or number), the
non-geometry properties, and an opaque geometry payload owned by the
external mapping library. -/
structure OLFeature where
  fid : Option JSVal
  props : List (String × JSVal)
  geom : ℕ
deriving Repr

/-- Association-list update backing `feature.set(key, value)` (JS object
keys are unique). -/
def setAssoc (l : List (String × JSVal)) (key : String) (v : JSVal) :
    List (String × JSVal) :=
  match l with
  | [] => [(key, v)]
  | (k0, v0) :: rest => if k0 = key then (key, v) :: rest else (k0, v0) :: setAssoc rest key v

/-- `feature.set(key, value)`. -/
def setProp (f : OLFeature) (key : String) (v : JSVal) : OLFeature :=
  { f with props := setAssoc f.props key v }

/-- `FrameDescriptor` from src/unnamed/part_000 lines 15-23 (the center and
extent records are flattened into their lon/lat components). -/
structure FrameDescriptor where
  layerKey : String
  projection : String
  date : Option String
  zoom : Option ℚ
  opacity : ℚ
  centerLon : ℚ
  centerLat : ℚ
  minLon : ℚ
  minLat : ℚ
  maxLon : ℚ
  maxLat : ℚ
deriving Repr

/-- `AnnotationFeature` from src/unnamed/part_000 lines 25-30: one entry of
the save payload, and equally one entry of the server's response.  The
`feature` field is the external GeoJSON formatter's `writeFeatureObject`
result, modelled as the feature data it serializes. -/
structure AnnotationFeaturePayload where
  id : Option JSVal
  order : ℕ
  feature : OLFeature
  properties : Option (List (String × JSVal))
deriving Repr

/-- One `saveAnnotations` POST (src/unnamed/part_000 lines 63-68) as
dispatched by `persistAnnotations`. -/
structure SaveCall where
  url : String
  frame : FrameDescriptor
  features : List AnnotationFeaturePayload
  sentAt : ℕ
deriving Repr

/-- The mutable state of the part_004 annotation sync engine: the vector
source's entity list, the `skipPersistRef` remote-apply flag, the pending
save debounce timer (`saveTimeoutRef`, stored as its absolute deadline),
the log of save POSTs dispatched so far, and the current time in ms. -/
structure EngineState where
  features : List OLFeature
  skipPersist : Bool
  saveTimer : Option ℕ
  saveCalls : List SaveCall
  now : ℕ
deriving Repr

/-- `schedulePersistAnnotations` (src/unnamed/part_004 lines 298-305): bail
out when the remote-apply flag is set; otherwise clear any pending timer
and arm a fresh single-shot 400 ms timeout for `persistAnnotations` —
rescheduling replaces the previous deadline. -/
def schedulePersistAnnotations (s : EngineState) : EngineState :=
  if s.skipPersist then s
  else { s with saveTimer := some (s.now + 400) }

/-- The `handleChange` listener (src/unnamed/part_004 lines 628-643) fired
on every `addfeature`/`removefeature`/`changefeature` event: bumps the UI
key (not modelled) and schedules a save unless the remote-apply flag is
set. -/
def handleChange (s : EngineState) : EngineState :=
  if s.skipPersist then s else schedulePersistAnnotations s

/-- A local mutation of the entity set (draw end, modify end, rename,
delete) followed by the vector-source event firing `handleChange`. -/
def applyLocalMutation (m : List OLFeature → List OLFeature) (s : EngineState) : EngineState :=
  handleChange { s with features := m s.features }

/-- The payload `persistAnnotations` builds (src/unnamed/part_004 lines
314-328), one entry per entity from index `startIdx` on: the entity's
current id, a freshly computed order index equal to its position, its
serialized feature and its non-geometry properties. -/
def persistPayloadFrom (startIdx : ℕ) : List OLFeature → List AnnotationFeaturePayload
  | [] => []
  | f :: rest => ⟨f.fid, startIdx, f, some f.props⟩ :: persistPayloadFrom (startIdx + 1) rest

/-- `sourceFeatures.map((feat, index) => ...)`: the entire current entity
set serialized positionally. -/
def persistPayload (feats : List OLFeature) : List AnnotationFeaturePayload :=
  persistPayloadFrom 0 feats

/-- `persistAnnotations` (src/unnamed/part_004 lines 307-353) at the moment
the POST is dispatched: serialize the whole set, attach the current frame,
and POST to `/v1/annotations` via `saveAnnotations` (part_000 lines
63-68). -/
def persistAnnotations (frame : FrameDescriptor) (s : EngineState) : EngineState :=
  { s with saveCalls := s.saveCalls ++ [⟨"/v1/annotations", frame, persistPayload s.features, s.now⟩] }

/-- Advance the engine clock to time `t`, firing the save timeout at its
deadline when it falls due on the way (the JS event loop runs the timer
callback before any later event). -/
def advanceTo (frame : FrameDescriptor) (s : EngineState) (t : ℕ) : EngineState :=
  match s.saveTimer with
  | some deadline =>
    if deadline ≤ t then
      { persistAnnotations frame { s with saveTimer := none, now := deadline } with now := t }
    else { s with now := t }
  | none => { s with now := t }

/-- Run a sequence of timestamped local mutations. -/
def runMutations (frame : FrameDescriptor) (s : EngineState)
    (evs : List (ℕ × (List OLFeature → List OLFeature))) : EngineState :=
  evs.foldl (fun st ev => applyLocalMutation ev.2 (advanceTo frame st ev.1)) s

/-- Net effect of a mutation trace on the entity set. -/
def applyMuts (evs : List (ℕ × (List OLFeature → List OLFeature)))
    (fs : List OLFeature) : List OLFeature :=
  evs.foldl (fun a ev => ev.2 a) fs

/-- The mutation timestamps are nondecreasing from `prev` and each gap is
strictly inside the 400 ms debounce window. -/
def WithinDebounce : ℕ → List (ℕ × (List OLFeature → List OLFeature)) → Prop
  | _, [] => True
  | prev, (t, _) :: rest => prev ≤ t ∧ t < prev + 400 ∧ WithinDebounce t rest

/-- Last mutation timestamp of a trace (default for the empty trace). -/
def lastTimeD (dflt : ℕ) (evs : List (ℕ × (List OLFeature → List OLFeature))) : ℕ :=
  evs.foldl (fun _ ev => ev.1) dflt

theorem runMutations_cons (frame : FrameDescriptor) (s : EngineState) (t : ℕ)
    (m : List OLFeature → List OLFeature)
    (rest : List (ℕ × (List OLFeature → List OLFeature))) :
    runMutations frame s ((t, m) :: rest) =
      runMutations frame (applyLocalMutation m (advanceTo frame s t)) rest := rfl

theorem advanceTo_none (frame : FrameDescriptor) (s : EngineState) (t : ℕ)
    (h : s.saveTimer = none) : advanceTo frame s t = { s with now := t } := by
  simp only [advanceTo, h]

theorem advanceTo_wait (frame : FrameDescriptor) (s : EngineState) (t deadline : ℕ)
    (h : s.saveTimer = some deadline) (hgt : ¬ deadline ≤ t) :
    advanceTo frame s t = { s with now := t } := by
  simp only [advanceTo, h]
  rw [if_neg hgt]

theorem advanceTo_fire (frame : FrameDescriptor) (s : EngineState) (t deadline : ℕ)
    (h : s.saveTimer = some deadline) (hle : deadline ≤ t) :
    advanceTo frame s t =
      { persistAnnotations frame { s with saveTimer := none, now := deadline } with now := t } := by
  simp only [advanceTo, h]
  rw [if_pos hle]

theorem runMutations_in_window (frame : FrameDescriptor)
    (evs : List (ℕ × (List OLFeature → List OLFeature))) (s : EngineState) (prev : ℕ)
    (hskip : s.skipPersist = false)
    (htimer : s.saveTimer = some (prev + 400))
    (hnow : s.now = prev)
    (hw : WithinDebounce prev evs) :
    runMutations frame s evs =
      { features := applyMuts evs s.features
        skipPersist := false
        saveTimer := some (lastTimeD prev evs + 400)
        saveCalls := s.saveCalls
        now := lastTimeD prev evs } := by
  induction evs generalizing s prev with
  | nil =>
    obtain ⟨fs, sk, st, sc, n⟩ := s
    simp only at hskip htimer hnow
    subst hskip htimer hnow
    rfl
  | cons ev rest ih =>
    obtain ⟨t, m⟩ := ev
    obtain ⟨hle, hlt, hwr⟩ := hw
    have hstep : applyLocalMutation m (advanceTo frame s t) =
        { features := m s.features
          skipPersist := false
          saveTimer := some (t + 400)
          saveCalls := s.saveCalls
          now := t } := by
      rw [advanceTo_wait frame s t (prev + 400) htimer (by omega)]
      rw [applyLocalMutation, handleChange]
      simp [hskip, schedulePersistAnnotations]
    rw [runMutations_cons, hstep]
    exact ih _ t rfl rfl rfl hwr

/-- C1: for every burst of `K ≥ 1` local mutations whose gaps all lie
strictly inside the 400 ms debounce window, starting with no pending save
timer and the remote-apply flag clear, exactly one save POST is dispatched;
it fires 400 ms after the last mutation (after the window elapses), and its
payload serializes the entity set resulting from all `K` mutations. -/
theorem debounced_save_coalescing (frame : FrameDescriptor) (s0 : EngineState)
    (t1 : ℕ) (m1 : List OLFeature → List OLFeature)
    (rest : List (ℕ × (List OLFeature → List OLFeature))) (T : ℕ)
    (hskip : s0.skipPersist = false)
    (htimer : s0.saveTimer = none)
    (hnow : s0.now ≤ t1)
    (hw : WithinDebounce t1 rest)
    (hT : lastTimeD t1 rest + 400 ≤ T) :
    advanceTo frame (runMutations frame s0 ((t1, m1) :: rest)) T =
      { features := applyMuts ((t1, m1) :: rest) s0.features
        skipPersist := false
        saveTimer := none
        saveCalls := s0.saveCalls ++
          [⟨"/v1/annotations", frame,
            persistPayload (applyMuts ((t1, m1) :: rest) s0.features),
            lastTimeD t1 rest + 400⟩]
        now := T } := by
  have hstep1 : applyLocalMutation m1 (advanceTo frame s0 t1) =
      { features := m1 s0.features
        skipPersist := false
        saveTimer := some (t1 + 400)
        saveCalls := s0.saveCalls
        now := t1 } := by
    rw [advanceTo_none frame s0 t1 htimer]
    rw [applyLocalMutation, handleChange]
    simp [hskip, schedulePersistAnnotations]
  rw [runMutations_cons, hstep1,
    runMutations_in_window frame rest _ t1 rfl rfl rfl hw]
  rw [advanceTo_fire frame _ T (lastTimeD t1 rest + 400) rfl hT]
  rfl

/-- Concrete frame used by the engine witnesses. -/
def witFrame : FrameDescriptor :=
  ⟨"gibs:MODIS_Terra_CorrectedReflectance_TrueColor", "EPSG:3857",
    some "2024-01-01", some 3, 1, 0, 0, -1, -1, 1, 1⟩

/-- Concrete point annotation used by the engine witnesses. -/
def witFeat : OLFeature := ⟨none, [("name", .str "a")], 1⟩

/-- Witness mutation: draw one feature. -/
def witMutAdd : List OLFeature → List OLFeature := fun fs => fs ++ [witFeat]

/-- Witness mutation: rename every feature to "b". -/
def witMutRename : List OLFeature → List OLFeature :=
  fun fs => fs.map fun f => setProp f "name" (.str "b")

/-- C1 witness: two mutations 300 ms apart (inside the 400 ms window) from
the idle engine — one save fires at 700 ms carrying both mutations. -/
theorem debounced_save_coalescing_witness :
    advanceTo witFrame (runMutations witFrame ⟨[], false, none, [], 0⟩
        ((0, witMutAdd) :: [(300, witMutRename)])) 700 =
      { features := applyMuts ((0, witMutAdd) :: [(300, witMutRename)]) []
        skipPersist := false
        saveTimer := none
        saveCalls := [] ++
          [⟨"/v1/annotations", witFrame,
            persistPayload (applyMuts ((0, witMutAdd) :: [(300, witMutRename)]) []),
            lastTimeD 0 [(300, witMutRename)] + 400⟩]
        now := 700 } :=
  debounced_save_coalescing witFrame ⟨[], false, none, [], 0⟩ 0 witMutAdd
    [(300, witMutRename)] 700 rfl rfl (Nat.le_refl 0)
    ⟨by norm_num, by norm_num, trivial⟩ (by decide)

/-- One annotation record returned by `fetchAnnotations`, converted to a
local feature exactly as the `remote.forEach` body of `loadAnnotations`
(src/unnamed/part_004 lines 275-285) does: `readFeature` restores the
serialized geometry and properties, the server id is applied when it is
neither `undefined` nor `null`, the `order` property is set (JS assigns
`undefined` when the record has none), and the record's `properties`
entries overwrite. -/
def featureOfRecord (item : AnnotationFeaturePayload) : OLFeature :=
  let f0 : OLFeature := { fid := none, props := item.feature.props, geom := item.feature.geom }
  let f1 := match item.id with
    | some v => match v with
      | .null => f0
      | v2 => { f0 with fid := some v2 }
    | none => f0
  let f2 := setProp f1 "order" (.num (.num (item.order : ℚ)))
  match item.properties with
  | some props => props.foldl (fun acc kv => setProp acc kv.1 kv.2) f2
  | none => f2

/-- `loadAnnotations` applying a fetched result (src/unnamed/part_004 lines
263-296): set `skipPersistRef`, clear the source (a single `clear` event —
no `removefeature` handler runs), add each remote feature (each `addfeature`
event runs `handleChange` while the flag is set), then clear the flag. -/
def applyRemoteRecords (records : List AnnotationFeaturePayload) (s : EngineState) :
    EngineState :=
  let s1 := { s with skipPersist := true }
  let s2 := { s1 with features := [] }
  let s3 := records.foldl
    (fun st item => applyLocalMutation (fun fs => fs ++ [featureOfRecord item]) st) s2
  { s3 with skipPersist := false }

theorem applyRemote_foldl_frozen (records : List AnnotationFeaturePayload)
    (s : EngineState) (hskip : s.skipPersist = true) :
    (records.foldl
      (fun st item => applyLocalMutation (fun fs => fs ++ [featureOfRecord item]) st) s) =
    { s with features := s.features ++ records.map featureOfRecord } := by
  induction records generalizing s with
  | nil => simp
  | cons item rest ih =>
    rw [List.foldl_cons]
    have hstep : applyLocalMutation (fun fs => fs ++ [featureOfRecord item]) s =
        { s with features := s.features ++ [featureOfRecord item] } := by
      rw [applyLocalMutation, handleChange, if_pos hskip]
    rw [hstep, ih _ (by simpa using hskip)]
    simp

/-- C2: while a fetched result is being applied the `skipPersistRef` flag
is set, and every mutation-event handler that fires while the flag is set
leaves both the save timer and the dispatched-save log untouched; in
consequence applying a fetch result never schedules or dispatches a save —
the timer and the save log are exactly those from before the apply, and
the entity set is replaced by the fetched records. -/
theorem remote_apply_never_saves (records : List AnnotationFeaturePayload)
    (s : EngineState) :
    (applyRemoteRecords records s).saveTimer = s.saveTimer ∧
    (applyRemoteRecords records s).saveCalls = s.saveCalls ∧
    (applyRemoteRecords records s).features = records.map featureOfRecord ∧
    (applyRemoteRecords records s).skipPersist = false ∧
    (∀ m st, st.skipPersist = true →
      applyLocalMutation m st = { st with features := m st.features }) := by
  have hfold := applyRemote_foldl_frozen records
    { s with skipPersist := true, features := [] } rfl
  refine ⟨?_, ?_, ?_, ?_, ?_⟩
  · rw [applyRemoteRecords]
    simp only [hfold]
  · rw [applyRemoteRecords]
    simp only [hfold]
  · rw [applyRemoteRecords]
    simp only [hfold]
    simp
  · rw [applyRemoteRecords]
  · intro m st hskip
    rw [applyLocalMutation, handleChange, if_pos hskip]

/-- C2 witness: applying one fetched record to an engine state that has a
pending timer and a save log shows the flag-guarded handlers leave both
untouched. -/
theorem remote_apply_never_saves_witness :
    (applyRemoteRecords [⟨some (.str "a1"), 0, witFeat, none⟩]
        ⟨[witFeat], false, some 900, [], 500⟩).saveTimer = some 900 ∧
    (applyRemoteRecords [⟨some (.str "a1"), 0, witFeat, none⟩]
        ⟨[witFeat], false, some 900, [], 500⟩).saveCalls = [] ∧
    applyLocalMutation witMutAdd ⟨[], true, none, [], 0⟩ =
      { features := witMutAdd [], skipPersist := true, saveTimer := none
        saveCalls := [], now := 0 } := by
  obtain ⟨h1, h2, -, -, h5⟩ := remote_apply_never_saves
    [⟨some (.str "a1"), 0, witFeat, none⟩] ⟨[witFeat], false, some 900, [], 500⟩
  exact ⟨h1, h2, h5 witMutAdd ⟨[], true, none, [], 0⟩ rfl⟩

/-- `item.id !== null` test used before `feature.setId(item.id)`. -/
def isNullVal : JSVal → Bool
  | .null => true
  | _ => false

/-- The property part of the `saved.forEach` loop body: refresh the
`order` property from the response, then apply every server-returned
property entry. -/
def applySavedProps (item : AnnotationFeaturePayload) (f1 : OLFeature) : OLFeature :=
  let f2 := setProp f1 "order" (.num (.num (item.order : ℚ)))
  match item.properties with
  | some props => props.foldl (fun acc kv => setProp acc kv.1 kv.2) f2
  | none => f2

/-- The `saved.forEach` loop body of `persistAnnotations` (src/unnamed/
part_004 lines 333-343) applied to one feature: the server-assigned id is
set when it is neither `undefined` nor `null`, the `order` property is
refreshed from the response, and every server-returned property entry is
applied. -/
def applySavedItem (f : OLFeature) (item : AnnotationFeaturePayload) : OLFeature :=
  applySavedProps item
    (match item.id with
     | some v => match v with
       | .null => f
       | v2 => { f with fid := some v2 }
     | none => f)

theorem foldl_setProp_fid (props : List (String × JSVal)) (f : OLFeature) :
    (props.foldl (fun acc kv => setProp acc kv.1 kv.2) f).fid = f.fid := by
  induction props generalizing f with
  | nil => rfl
  | cons kv rest ih =>
    rw [List.foldl_cons, ih]
    rfl

theorem applySavedProps_fid (item : AnnotationFeaturePayload) (f1 : OLFeature) :
    (applySavedProps item f1).fid = f1.fid := by
  rw [applySavedProps]
  cases item.properties with
  | none => rfl
  | some props =>
    rw [foldl_setProp_fid]
    rfl

/-- The positional merge of the save response: response item `i` mutates
`sourceFeatures[i]` (`if (!feature) return;` skips response items past the
end of the submitted list, and features beyond the response stay as they
are). -/
def mergeSavedFrom (saved : List AnnotationFeaturePayload) (i : ℕ) :
    List OLFeature → List OLFeature
  | [] => []
  | f :: rest =>
    (match saved.get? i with
     | some item => applySavedItem f item
     | none => f) :: mergeSavedFrom saved (i + 1) rest

/-- Merge of a full save response onto the submitted feature list. -/
def mergeSavedResponse (feats : List OLFeature) (saved : List AnnotationFeaturePayload) :
    List OLFeature :=
  mergeSavedFrom saved 0 feats

theorem persistPayloadFrom_get (feats : List OLFeature) (k i : ℕ) (f : OLFeature)
    (h : feats.get? i = some f) :
    (persistPayloadFrom k feats).get? i = some ⟨f.fid, k + i, f, some f.props⟩ := by
  induction feats generalizing k i with
  | nil => simp at h
  | cons g rest ih =>
    cases i with
    | zero =>
      simp only [List.get?] at h
      injection h with h
      subst h
      rfl
    | succ j =>
      simp only [List.get?] at h
      have := ih (k + 1) j h
      simpa [persistPayloadFrom, Nat.add_assoc, Nat.add_comm 1 j] using this

theorem persistPayloadFrom_length (feats : List OLFeature) (k : ℕ) :
    (persistPayloadFrom k feats).length = feats.length := by
  induction feats generalizing k with
  | nil => rfl
  | cons g rest ih => simp [persistPayloadFrom, ih]

theorem mergeSavedFrom_get (saved : List AnnotationFeaturePayload)
    (feats : List OLFeature) (k i : ℕ) (f : OLFeature)
    (h : feats.get? i = some f) :
    (mergeSavedFrom saved k feats).get? i =
      some (match saved.get? (k + i) with
            | some item => applySavedItem f item
            | none => f) := by
  induction feats generalizing k i with
  | nil => simp at h
  | cons g rest ih =>
    cases i with
    | zero =>
      simp only [List.get?] at h
      injection h with h
      subst h
      rfl
    | succ j =>
      simp only [List.get?] at h
      have := ih (k + 1) j h
      simpa [mergeSavedFrom, Nat.add_assoc, Nat.add_comm 1 j] using this

theorem mergeSavedFrom_length (saved : List AnnotationFeaturePayload)
    (feats : List OLFeature) (k : ℕ) :
    (mergeSavedFrom saved k feats).length = feats.length := by
  induction feats generalizing k with
  | nil => rfl
  | cons g rest ih => simp [mergeSavedFrom, ih]

/-- C3: the save POSTs the entire current entity set (not a diff) to
`/v1/annotations` with the current frame attached, entity `i` carrying the
freshly computed order index `i` together with its id, serialized feature
and properties; and on success the response is merged positionally — the
`i`-th response item lands on the `i`-th submitted entity, assigning its
server id whenever one is returned, leaving the id untouched when none is,
and leaving entities beyond the response unchanged. -/
theorem save_payload_positional_merge (frame : FrameDescriptor) (s : EngineState)
    (saved : List AnnotationFeaturePayload) :
    (persistAnnotations frame s).saveCalls =
      s.saveCalls ++ [⟨"/v1/annotations", frame, persistPayload s.features, s.now⟩] ∧
    (persistPayload s.features).length = s.features.length ∧
    (∀ i f, s.features.get? i = some f →
      (persistPayload s.features).get? i = some ⟨f.fid, i, f, some f.props⟩) ∧
    (mergeSavedResponse s.features saved).length = s.features.length ∧
    (∀ i f item, s.features.get? i = some f → saved.get? i = some item →
      (mergeSavedResponse s.features saved).get? i = some (applySavedItem f item)) ∧
    (∀ f item v, item.id = some v → isNullVal v = false →
      (applySavedItem f item).fid = some v) ∧
    (∀ f item, item.id = none → (applySavedItem f item).fid = f.fid) ∧
    (∀ i f, s.features.get? i = some f → saved.get? i = none →
      (mergeSavedResponse s.features saved).get? i = some f) := by
  refine ⟨rfl, persistPayloadFrom_length _ 0, ?_, mergeSavedFrom_length _ _ 0, ?_, ?_, ?_, ?_⟩
  · intro i f h
    simpa using persistPayloadFrom_get s.features 0 i f h
  · intro i f item hf hitem
    rw [mergeSavedResponse, mergeSavedFrom_get saved s.features 0 i f hf]
    simp only [Nat.zero_add, hitem]
  · intro f item v hid hnn
    rw [applySavedItem, applySavedProps_fid]
    simp only [hid]
    cases v <;> simp_all [isNullVal]
  · intro f item hid
    rw [applySavedItem, applySavedProps_fid]
    simp only [hid]
  · intro i f hf hnone
    rw [mergeSavedResponse, mergeSavedFrom_get saved s.features 0 i f hf]
    simp only [Nat.zero_add, hnone]

/-- C3 witness: saving a one-feature set at time 42 and merging a one-item
response that assigns the server id "srv1" and a server property. -/
theorem save_payload_positional_merge_witness :
    (persistAnnotations witFrame ⟨[witFeat], false, none, [], 42⟩).saveCalls =
      [] ++ [⟨"/v1/annotations", witFrame, persistPayload [witFeat], 42⟩] ∧
    (mergeSavedResponse [witFeat]
        [⟨some (.str "srv1"), 0, witFeat, some [("color", .str "red")]⟩]).get? 0 =
      some (applySavedItem witFeat
        ⟨some (.str "srv1"), 0, witFeat, some [("color", .str "red")]⟩) ∧
    (applySavedItem witFeat
        ⟨some (.str "srv1"), 0, witFeat, some [("color", .str "red")]⟩).fid =
      some (.str "srv1") := by
  obtain ⟨h1, -, -, -, h5, h6, -, -⟩ :=
    save_payload_positional_merge witFrame ⟨[witFeat], false, none, [], 42⟩
      [⟨some (.str "srv1"), 0, witFeat, some [("color", .str "red")]⟩]
  exact ⟨h1, h5 0 witFeat _ rfl rfl, h6 witFeat _ (.str "srv1") rfl rfl⟩

/-- Object-spread merge `{ ...a, ...b }` over JS objects with unique keys:
keys of `a` keep their position, taking the overriding value from `b` when
present; keys only in `b` append in order. -/
def spreadMerge (a b : List (String × JSVal)) : List (String × JSVal) :=
  (a.map fun kv =>
    match b.lookup kv.1 with
    | some v => (kv.1, v)
    | none => kv) ++
  b.filter fun kv => (a.lookup kv.1).isNone

/-- Assignment `v.name = x` on an object value (the guarded source never
reaches the non-object case). -/
def setField (v : JSVal) (name : String) (x : JSVal) : JSVal :=
  match v with
  | .obj fields => .obj (setAssoc fields name x)
  | other => other

/-- The Point feature `ensureFeatureGeometry` synthesizes from the lon/lat
fallbacks. -/
def synthPointFeature (lon lat : ℚ) : JSVal :=
  .obj [("type", .str "Feature"),
        ("geometry", .obj [("type", .str "Point"),
                           ("coordinates", .arr [.num (.num lon), .num (.num lat)])]),
        ("properties", .obj [])]

/-- `ensureFeatureGeometry` from src/unnamed/part_001 lines 1026-1043: keep
a feature that is a truthy object with a truthy geometry; otherwise
synthesize a Point from numeric lon/lat fallbacks, or give up. -/
def ensureFeatureGeometry (feature : JSVal) (fLon fLat : Option ℚ) : Option JSVal :=
  if jsTruthy feature && (jsTypeof feature == "object") &&
      jsTruthy (getField feature "geometry") then
    some feature
  else
    match fLon with
    | none => none
    | some lon =>
      match fLat with
      | none => none
      | some lat => some (synthPointFeature lon lat)

/-- `AnnotationRecord` from src/unnamed/part_001 lines 742-749. -/
structure AnnotationRecord where
  id : String
  order : Option ℚ
  feature : JSVal
  properties : JSVal
  createdAt : Option String
  updatedAt : Option String
deriving Repr

/-- `feature.properties = { ...feature.properties, ...properties }` when
both sides are objects (the spread of exotic non-object "object"s such as
arrays, which cannot reach this guarded branch with well-formed feature
documents, leaves the feature unchanged in the model). -/
def mergeFeatureProps (feature pv : JSVal) : JSVal :=
  match getField feature "properties", pv with
  | .obj a, .obj b => setField feature "properties" (.obj (spreadMerge a b))
  | _, _ => feature

/-- `normalizeAnnotation` from src/unnamed/part_001 lines 1045-1074
(suffixed `Rec` here).  Note the id is
`pickString(raw.id, raw.annotationId, raw.uuid, String(raw.id))`: the
`String(raw.id)` fallback turns an absent id into the literal string
`"undefined"`.  When the raw record carries an object `properties`, it is
spread over the feature's own properties. -/
def normalizeAnnotationRec (raw : JSVal) : Option AnnotationRecord :=
  if !jsTruthy raw || !(jsTypeof raw == "object") then none
  else
    match pickString [getField raw "id", getField raw "annotationId", getField raw "uuid",
        .str (jsToString (getField raw "id"))] with
    | none => none
    | some id =>
      match ensureFeatureGeometry (getField raw "feature")
          (pickNumber [getField raw "lon", getField raw "longitude"])
          (pickNumber [getField raw "lat", getField raw "latitude"]) with
      | none => none
      | some feature =>
        let properties := if jsTypeof (getField raw "properties") == "object"
          then getField raw "properties" else .undefined
        let feature2 :=
          if jsTruthy properties && jsTruthy (getField feature "properties") &&
              (jsTypeof (getField feature "properties") == "object") then
            mergeFeatureProps feature properties
          else feature
        some ⟨id, pickNumber [getField raw "order"], feature2, properties,
          pickString [getField raw "createdAt"], pickString [getField raw "updatedAt"]⟩

/-- The raw list `fetchAnnotations` iterates (src/unnamed/part_001 lines
1139-1145): `data.items` when it is an array, else `data.features`, else
`data` itself, else nothing. -/
def extractAnnotationList (data : JSVal) : List JSVal :=
  match getField data "items" with
  | .arr items => items
  | _ =>
    match getField data "features" with
    | .arr feats => feats
    | _ =>
      match data with
      | .arr l => l
      | _ => []

/-- The collection loop of `fetchAnnotations` (lines 1146-1151): normalize
each entry, silently skipping the ones that normalize to null. -/
def normalizeAnnotationList (rawList : List JSVal) : List AnnotationRecord :=
  rawList.filterMap normalizeAnnotationRec

/-- `fetchAnnotations`' result for a response body `data`. -/
def fetchAnnotationsNormalize (data : JSVal) : List AnnotationRecord :=
  normalizeAnnotationList (extractAnnotationList data)

/-- Id projection of an optional record (used to state closed facts
without binders). -/
def recIdOf : Option AnnotationRecord → Option String
  | some r => some r.id
  | none => none

theorem pickString_ne_empty (l : List JSVal) (s : String) (h : pickString l = some s) :
    s ≠ "" := by
  induction l with
  | nil => exact absurd h (by simp [pickString])
  | cons v rest ih =>
    cases v with
    | str s0 =>
      rw [pickString] at h
      by_cases hemp : (jsTrim s0).isEmpty = true
      · rw [if_pos hemp] at h
        exact ih h
      · rw [if_neg hemp] at h
        injection h with h
        subst h
        intro hcon
        rw [hcon] at hemp
        exact hemp rfl
    | undefined => exact ih h
    | null => exact ih h
    | bool b => exact ih h
    | num x => exact ih h
    | obj fields => exact ih h
    | arr elems => exact ih h

theorem lookup_setAssoc_ne (l : List (String × JSVal)) (key key2 : String) (v : JSVal)
    (hne : key2 ≠ key) : (setAssoc l key v).lookup key2 = l.lookup key2 := by
  induction l with
  | nil =>
    simp only [setAssoc, List.lookup]
    rw [show (key2 == key) = false from beq_eq_false_iff_ne.mpr hne]
  | cons kv rest ih =>
    obtain ⟨k0, v0⟩ := kv
    rw [setAssoc]
    by_cases hk : k0 = key
    · rw [if_pos hk]
      subst hk
      simp only [List.lookup]
      rw [show (key2 == k0) = false from beq_eq_false_iff_ne.mpr hne]
    · rw [if_neg hk]
      simp only [List.lookup]
      by_cases hk2 : key2 = k0
      · rw [show (key2 == k0) = true from beq_iff_eq.mpr hk2]
      · rw [show (key2 == k0) = false from beq_eq_false_iff_ne.mpr hk2, ih]

theorem getField_setField_ne (v : JSVal) (name name2 : String) (x : JSVal)
    (hne : name2 ≠ name) : getField (setField v name x) name2 = getField v name2 := by
  cases v with
  | obj fields =>
    simp only [setField, getField]
    rw [lookup_setAssoc_ne fields name name2 x hne]
  | undefined => rfl
  | null => rfl
  | bool b => rfl
  | num q => rfl
  | str s => rfl
  | arr elems => rfl

theorem getField_synthPoint_geom (lon lat : ℚ) :
    getField (synthPointFeature lon lat) "geometry" =
      .obj [("type", .str "Point"),
            ("coordinates", .arr [.num (.num lon), .num (.num lat)])] := rfl

theorem mergeFeatureProps_geom (feature pv : JSVal)
    (hg : jsTruthy (getField feature "geometry") = true) :
    jsTruthy (getField (mergeFeatureProps feature pv) "geometry") = true := by
  cases hfp : getField feature "properties" <;> cases pv <;>
    simp only [mergeFeatureProps, hfp] <;>
    first
    | exact hg
    | (rw [getField_setField_ne feature "properties" "geometry" _ (by decide)]; exact hg)

theorem ensureFeatureGeometry_some_geom (f : JSVal) (a b : Option ℚ) (g : JSVal)
    (h : ensureFeatureGeometry f a b = some g) :
    jsTruthy (getField g "geometry") = true := by
  unfold ensureFeatureGeometry at h
  by_cases hcond : (jsTruthy f && (jsTypeof f == "object") && jsTruthy (getField f "geometry")) = true
  · rw [if_pos hcond] at h
    injection h with h
    subst h
    exact (Bool.and_eq_true .. |>.mp hcond).2
  · rw [if_neg hcond] at h
    rcases a with _ | lon
    · simp at h
    · rcases b with _ | lat
      · simp at h
      · simp only [Option.some.injEq] at h
        subst h
        rfl

theorem ite_mergeFeatureProps_geom (c : Prop) [Decidable c] (feature pv : JSVal)
    (hg : jsTruthy (getField feature "geometry") = true) :
    jsTruthy (getField (if c then mergeFeatureProps feature pv else feature)
      "geometry") = true := by
  split
  · exact mergeFeatureProps_geom feature pv hg
  · exact hg

theorem normalizeRec_some_inv (raw : JSVal) (r : AnnotationRecord)
    (h : normalizeAnnotationRec raw = some r) :
    r.id ≠ "" ∧ jsTruthy (getField r.feature "geometry") = true ∧
      pickString [getField raw "id", getField raw "annotationId", getField raw "uuid",
        .str (jsToString (getField raw "id"))] = some r.id := by
  rw [normalizeAnnotationRec] at h
  by_cases houter : (!jsTruthy raw || !(jsTypeof raw == "object")) = true
  · rw [if_pos houter] at h
    exact absurd h (by simp)
  · rw [if_neg houter] at h
    rcases hpick : pickString [getField raw "id", getField raw "annotationId",
        getField raw "uuid", .str (jsToString (getField raw "id"))] with _ | id
    · rw [hpick] at h
      exact absurd h (by simp)
    · rw [hpick] at h
      rcases hfg : ensureFeatureGeometry (getField raw "feature")
          (pickNumber [getField raw "lon", getField raw "longitude"])
          (pickNumber [getField raw "lat", getField raw "latitude"]) with _ | feature
      · rw [hfg] at h
        exact absurd h (by simp)
      · rw [hfg] at h
        simp only [Option.some_inj] at h
        subst h
        have hgeom := ensureFeatureGeometry_some_geom _ _ _ _ hfg
        refine ⟨pickString_ne_empty _ _ hpick, ?_, ?_⟩
        · exact ite_mergeFeatureProps_geom _ feature _ hgeom
        · simpa using hpick

/-- C10 counterexample: a raw server entry with no id field at all (only
numeric lon/lat) is NOT dropped — `String(raw.id)` turns the absent id
into the literal string `"undefined"`, so the entry normalizes to a record
whose id is `"undefined"`. -/
theorem missing_id_not_dropped :
    recIdOf (normalizeAnnotationRec
        (.obj [("lon", .num (.num 1)), ("lat", .num (.num 2))])) = some "undefined" ∧
    (normalizeAnnotationRec
        (.obj [("lon", .num (.num 1)), ("lat", .num (.num 2))])).isSome = true := by decide

/-- C10 (amended): every record returned by the fetch normalization has a
nonempty string id and a feature with a truthy geometry; an entry whose id
candidates all stringify to blank is dropped, but an entry lacking the id
fields entirely is kept with the literal id `"undefined"` (the
`String(raw.id)` fallback); entries lacking both a geometry and numeric
lon/lat fallbacks are silently dropped rather than raising; and when the
geometry is absent but numeric lon/lat are present, a Point feature is
synthesized from them. -/
theorem fetch_normalization_invariant :
    (∀ data r, r ∈ fetchAnnotationsNormalize data →
      r.id ≠ "" ∧ jsTruthy (getField r.feature "geometry") = true) ∧
    (∀ raw, pickString [getField raw "id", getField raw "annotationId",
        getField raw "uuid", .str (jsToString (getField raw "id"))] = none →
      normalizeAnnotationRec raw = none) ∧
    (∀ raw r, normalizeAnnotationRec raw = some r →
      getField raw "id" = .undefined → getField raw "annotationId" = .undefined →
      getField raw "uuid" = .undefined → r.id = "undefined") ∧
    (∀ raw, ensureFeatureGeometry (getField raw "feature")
        (pickNumber [getField raw "lon", getField raw "longitude"])
        (pickNumber [getField raw "lat", getField raw "latitude"]) = none →
      normalizeAnnotationRec raw = none) ∧
    (∀ f lon lat, (jsTruthy f && (jsTypeof f == "object") &&
        jsTruthy (getField f "geometry")) = false →
      ensureFeatureGeometry f (some lon) (some lat) =
        some (synthPointFeature lon lat)) := by
  refine ⟨?_, ?_, ?_, ?_, ?_⟩
  · intro data r hmem
    obtain ⟨raw, -, hr⟩ := List.mem_filterMap.mp hmem
    exact ⟨(normalizeRec_some_inv raw r hr).1, (normalizeRec_some_inv raw r hr).2.1⟩
  · intro raw hpick
    rw [normalizeAnnotationRec]
    by_cases houter : (!jsTruthy raw || !(jsTypeof raw == "object")) = true
    · rw [if_pos houter]
    · rw [if_neg houter, hpick]
  · intro raw r h hid hann huuid
    have hpick := (normalizeRec_some_inv raw r h).2.2
    rw [hid, hann, huuid] at hpick
    rw [show pickString [JSVal.undefined, JSVal.undefined, JSVal.undefined,
        .str (jsToString JSVal.undefined)] = some "undefined" from rfl] at hpick
    injection hpick with hpick
    exact hpick.symm
  · intro raw hfg
    rw [normalizeAnnotationRec]
    by_cases houter : (!jsTruthy raw || !(jsTypeof raw == "object")) = true
    · rw [if_pos houter]
    · rw [if_neg houter]
      rcases hpick : pickString [getField raw "id", getField raw "annotationId",
          getField raw "uuid", .str (jsToString (getField raw "id"))] with _ | id
      · rfl
      · rw [hfg]
  · intro f lon lat hcond
    unfold ensureFeatureGeometry
    rw [hcond]
    simp

/-- C10 witness: the amended theorem applied to a concrete blank-id entry
(dropped) and to a geometry-less feature with numeric fallbacks (Point
synthesized). -/
theorem fetch_normalization_invariant_witness :
    normalizeAnnotationRec (.obj [("id", .str " ")]) = none ∧
    ensureFeatureGeometry .undefined (some 1) (some 2) =
      some (synthPointFeature 1 2) := by
  obtain ⟨-, h2, -, -, h5⟩ := fetch_normalization_invariant
  exact ⟨h2 (.obj [("id", .str " ")]) (by decide), h5 .undefined 1 2 (by decide)⟩

end Embiggen
